import Mathlib

/-!
# Verification of the Goodreads extraction pipeline

Shallow embedding of the Python sources of the Goodreads-Recommender
repository, together with theorems settling the specified properties.

Conventions of the embedding:
* A line-delimited JSON input stream is a `List (Option R)`: `none` stands for
  a line on which `json.loads` raises (the `except: continue` path), `some r`
  for a successfully parsed record of shape `R`.
* Python `dict`s (which preserve insertion order) are association lists,
  `str` ids are `String`, free-text fields are `List Char` so that slicing and
  substring tests are explicit.
* A possibly missing input file is an `Option` source; an output CSV file is
  `Option (List Row)`: `none` means the file was never opened, `some rows`
  means it was written with those data rows (the header row is implicit).
-/

/-- Association-list lookup, mirroring Python `d[k]` / `k in d` on a dict. -/
def lookupA {α β : Type} [DecidableEq α] (k : α) : List (α × β) → Option β
  | [] => none
  | (k₁, v) :: rest => if k₁ = k then some v else lookupA k rest

/-- Python `d[k] = v` on an insertion-ordered dict: overwrite in place if the
key is present, append otherwise. -/
def setA {α β : Type} [DecidableEq α] (m : List (α × β)) (k : α) (v : β) :
    List (α × β) :=
  match m with
  | [] => [(k, v)]
  | (k₁, v₁) :: rest => if k₁ = k then (k₁, v) :: rest else (k₁, v₁) :: setA rest k v

/-- Python `d[k] = d.get(k, 0) + 1` on an insertion-ordered dict. -/
def bump {α : Type} [DecidableEq α] (m : List (α × Nat)) (k : α) :
    List (α × Nat) :=
  match m with
  | [] => [(k, 1)]
  | (k₁, v) :: rest => if k₁ = k then (k₁, v + 1) :: rest else (k₁, v) :: bump rest k

/-- Python set `s.add(x)`; only membership in the result is ever used. -/
def insertS {α : Type} [DecidableEq α] (s : List α) (x : α) : List α :=
  if x ∈ s then s else s ++ [x]

/-- Stable insertion of one key/count pair behind all pairs of count `≥` its
own: the building block of the embedding of Python's stable
`sorted(items, key=lambda x: x[1], reverse=True)`. -/
def insertDesc {α : Type} (x : α × Nat) : List (α × Nat) → List (α × Nat)
  | [] => [x]
  | y :: ys => if x.2 ≤ y.2 then y :: insertDesc x ys else x :: y :: ys

/-- `sorted(items, key=lambda x: x[1], reverse=True)`: CPython's sort is
stable, and with `reverse=True` ties keep their original relative order; a
left fold of stable insertions has exactly that behaviour. -/
def sortDesc {α : Type} (l : List (α × Nat)) : List (α × Nat) :=
  l.foldl (fun acc x => insertDesc x acc) []

/-- `safe_truncate` of `extract_files.py` and `the_better_extract_files.py`
(the two definitions are textually identical):
`if not text: return ""` then
`text if len(text) <= max_length else text[:max_length] + "..."`. -/
def safe_truncate (text : List Char) (max_length : Nat) : List Char :=
  if text = [] then []
  else if text.length ≤ max_length then text
  else text.take max_length ++ ['.', '.', '.']

/- ----------------------------------------------------------------------
`extract_files.py`
---------------------------------------------------------------------- -/

/-- A parsed review record; fields are the ones `process_reviews` reads.
`record.get(f, "")` on a missing string field yields `""`; the numeric
`rating` field is kept as `Option Int` (absent = `none`). -/
structure ReviewRec where
  review_id : String
  user_id : String
  book_id : String
  rating : Option Int
  review_text : List Char
deriving DecidableEq

/-- Pass 1 of `process_reviews`: `user_counts[user_id] += 1` for every
parseable line with a truthy (non-empty) `user_id`. -/
def userCounts (input : List (Option ReviewRec)) : List (String × Nat) :=
  input.foldl
    (fun counts line =>
      match line with
      | none => counts
      | some record =>
        if record.user_id = "" then counts else bump counts record.user_id)
    []

/-- `int(len(all_users_sorted) * SAMPLE_USER_PERCENT)` with
`SAMPLE_USER_PERCENT = 0.05`.  For every `n` below `2 ^ 53` the Python float
expression `int(n * 0.05)` equals `n * 5 / 100` in exact arithmetic (the
rounding error of binary `0.05` is several orders of magnitude too small to
move the product across an integer), so the embedding uses the exact form. -/
def num_users_to_keep (n : Nat) : Nat := n * 5 / 100

/-- `top_users_old`: the keys of the first `num_users_to_keep` entries of the
stably descending-sorted count list (the Python code wraps them in a `set`;
only membership and size are ever used, and the keys are pairwise distinct). -/
def top_users_old (input : List (Option ReviewRec)) : List String :=
  ((sortDesc (userCounts input)).take
      (num_users_to_keep (userCounts input).length)).map Prod.fst

/-- One identifier map of `process_reviews` together with its
`next_*_id` counter (`user_id_map`/`next_user_id`,
`book_id_map`/`next_book_id`). -/
structure MapState where
  map : List (String × Nat)
  next : Nat
deriving DecidableEq

def initMap : MapState := ⟨[], 1⟩

/-- `get_mapped_user_id` / `get_mapped_book_id` (the two closures are
identical up to which map they close over):
`if old_id not in map: map[old_id] = next; next += 1; return map[old_id]`. -/
def get_mapped (old_id : String) (s : MapState) : Nat × MapState :=
  match lookupA old_id s.map with
  | some v => (v, s)
  | none => (s.next, ⟨s.map ++ [(old_id, s.next)], s.next + 1⟩)

/-- An output row of `reviews.csv` (the date and count columns are verbatim
copies of input fields, like `review_id`, and are elided). -/
structure ReviewRow where
  review_id : String
  user_id : Nat
  book_id : Nat
  rating : Option Int
  review_text : List Char
deriving DecidableEq

/-- The mutable state of pass 2 of `process_reviews`. -/
structure Pass2State where
  user_id_map : MapState
  book_id_map : MapState
  kept_users_old : List String
  kept_books_old : List String
  rows : List ReviewRow
  total_reviews : Nat
deriving DecidableEq

def initPass2 : Pass2State := ⟨initMap, initMap, [], [], [], 0⟩

/-- One loop iteration of pass 2 of `process_reviews`: skip unparseable
lines; skip records whose user is not a top user; otherwise remap both ids
(unconditionally — there is no membership pre-check on `book_id`), record
both original ids as kept, and write the row. -/
def pass2Step (top : List String) (st : Pass2State) (line : Option ReviewRec) :
    Pass2State :=
  match line with
  | none => st
  | some record =>
    if record.user_id ∈ top then
      let u := get_mapped record.user_id st.user_id_map
      let b := get_mapped record.book_id st.book_id_map
      { user_id_map := u.2
        book_id_map := b.2
        kept_users_old := insertS st.kept_users_old record.user_id
        kept_books_old := insertS st.kept_books_old record.book_id
        rows := st.rows ++ [{ review_id := record.review_id
                              user_id := u.1
                              book_id := b.1
                              rating := record.rating
                              review_text := safe_truncate record.review_text 1500 }]
        total_reviews := st.total_reviews + 1 }
    else st

/-- `process_reviews` of `extract_files.py` on an already-opened reviews
stream: pass 1 (`top_users_old`) then pass 2 over the same stream. -/
def process_reviews (input : List (Option ReviewRec)) : Pass2State :=
  input.foldl (pass2Step (top_users_old input)) initPass2

/-- The end-of-stage numbers `process_reviews` prints: users found, users
kept, reviews processed.  This is the complete observable report of the
stage. -/
def reviews_report (input : List (Option ReviewRec)) : Nat × Nat × Nat :=
  ((userCounts input).length, (top_users_old input).length,
    (process_reviews input).total_reviews)

/-- A parsed line of the genres file.  `join_field` serialises the raw
`genres` value to a flat string before any of the logic modelled here runs;
the embedding carries that string (`genre`) as opaque data. -/
structure GenreRec where
  book_id : String
  genre : List Char
deriving DecidableEq

/-- `load_genres`: missing file yields an empty dict (non-fatal), otherwise
`genres_dict[book_id] = genre_str` for every parseable line with truthy
`book_id`. -/
def load_genres (src : Option (List (Option GenreRec))) :
    List (String × List Char) :=
  match src with
  | none => []
  | some lines =>
    lines.foldl
      (fun d line =>
        match line with
        | none => d
        | some record =>
          if record.book_id = "" then d else setA d record.book_id record.genre)
      []

/-- A parsed book-metadata record (fields other than `book_id`, `title` and
`description` are copied verbatim into the output row and elided). -/
structure BookRec where
  book_id : String
  title : String
  description : List Char
deriving DecidableEq

/-- An output row of `books.csv`. -/
structure BookRow where
  book_id : Nat
  title : String
  description : List Char
  genre : List Char
deriving DecidableEq

/-- `process_books` of `extract_files.py`: missing file = no output written;
otherwise keep exactly the parseable records whose old id is in
`kept_books_old` and has a mapping, remap the id, attach the genre string. -/
def process_books (kept_books_old : List String) (book_id_map : MapState)
    (genres_dict : List (String × List Char))
    (src : Option (List (Option BookRec))) : Option (List BookRow) :=
  match src with
  | none => none
  | some lines =>
    some (lines.foldl
      (fun rows line =>
        match line with
        | none => rows
        | some record =>
          if record.book_id ∈ kept_books_old then
            match lookupA record.book_id book_id_map.map with
            | none => rows
            | some new_book_id =>
              rows ++ [{ book_id := new_book_id
                         title := record.title
                         description := safe_truncate record.description 1500
                         genre := (lookupA record.book_id genres_dict).getD [] }]
          else rows)
      [])

/-- An output row of `genres.csv`. -/
structure GenreRow where
  book_id : Nat
  genre : List Char
deriving DecidableEq

/-- `process_genres` of `extract_files.py`. -/
def process_genres (kept_books_old : List String) (book_id_map : MapState)
    (src : Option (List (Option GenreRec))) : Option (List GenreRow) :=
  match src with
  | none => none
  | some lines =>
    some (lines.foldl
      (fun rows line =>
        match line with
        | none => rows
        | some record =>
          if record.book_id ∈ kept_books_old then
            match lookupA record.book_id book_id_map.map with
            | none => rows
            | some new_book_id => rows ++ [⟨new_book_id, record.genre⟩]
          else rows)
      [])

/-- The input files `extract_files.main` may find on disk (`none` =
missing). -/
structure ExtractWorld where
  reviews_src : Option (List (Option ReviewRec))
  genres_src : Option (List (Option GenreRec))
  books_src : Option (List (Option BookRec))

/-- The CSV files `extract_files.main` leaves behind. -/
structure ExtractOutputs where
  reviews_out : Option (List ReviewRow)
  books_out : Option (List BookRow)
  genres_out : Option (List GenreRow)
deriving DecidableEq

/-- The review stage as called from `main`: a missing reviews file prints
`"Reviews file not found!"` and returns four empty collections — `main` is
not aborted and no `reviews.csv` is opened. -/
def reviews_stage (src : Option (List (Option ReviewRec))) :
    Option (List ReviewRow) × Pass2State :=
  match src with
  | none => (none, initPass2)
  | some input =>
    let st := process_reviews input
    (some st.rows, st)

/-- `main` of `extract_files.py`: run the review stage, intersect
`kept_books_old` with the keys of `book_id_map` (line 318), then run the
book and genre stages on the results. -/
def extract_main (w : ExtractWorld) : ExtractOutputs :=
  let r := reviews_stage w.reviews_src
  let kept_books :=
    r.2.kept_books_old.filter (fun b => (lookupA b r.2.book_id_map.map).isSome)
  let genres_dict := load_genres w.genres_src
  { reviews_out := r.1
    books_out := process_books kept_books r.2.book_id_map genres_dict w.books_src
    genres_out := process_genres kept_books r.2.book_id_map w.genres_src }

/- ----------------------------------------------------------------------
`the_better_extract_files.py`
---------------------------------------------------------------------- -/

def MAX_AUTHORS : Nat := 200000

def MAX_REVIEWS : Nat := 2000000

def MAX_INTERACTIONS : Nat := 4000000

/-- A parsed line of the author file. -/
structure AuthorRec where
  author_id : String
  name : String
  role : String
  book_id : String
deriving DecidableEq

/-- An entry of `seen_authors` in `process_authors`; `books` is the plain
accumulated string (`record.get("book_id", "")` at first encounter, later
extended with `";" + book_id`). -/
structure AuthorRow where
  author_id : String
  name : String
  role : String
  books : List Char
deriving DecidableEq

/-- The loop of `process_authors`: skip unparseable lines and falsy
`author_id`s; a first encounter adds a fresh row (and `break`s once
`MAX_AUTHORS` unique authors are seen); a repeat encounter appends
`";" + book_id` to the accumulated `books` string iff `book_id` is truthy
and — by Python's `in` on `str` — not a *substring* of that string. -/
def process_authors_loop :
    List (Option AuthorRec) → List (String × AuthorRow) → Nat →
    List (String × AuthorRow)
  | [], seen, _ => seen
  | line :: rest, seen, count =>
    match line with
    | none => process_authors_loop rest seen count
    | some record =>
      if record.author_id = "" then process_authors_loop rest seen count
      else
        match lookupA record.author_id seen with
        | none =>
          let seen1 := seen ++ [(record.author_id,
            { author_id := record.author_id
              name := record.name
              role := record.role
              books := record.book_id.data })]
          if MAX_AUTHORS ≤ count + 1 then seen1
          else process_authors_loop rest seen1 (count + 1)
        | some row =>
          if record.book_id ≠ "" ∧ ¬ (record.book_id.data <:+: row.books) then
            process_authors_loop rest
              (setA seen record.author_id
                { row with books := row.books ++ ';' :: record.book_id.data })
              count
          else process_authors_loop rest seen count

/-- `process_authors`: the loop above, then `seen_authors.values()` written
out in insertion order. -/
def process_authors (input : List (Option AuthorRec)) : List AuthorRow :=
  (process_authors_loop input [] 0).map Prod.snd

/-- An output row of the better `reviews.csv` (ids kept verbatim; the
date and count columns are verbatim copies and are elided). -/
structure ReviewRow2 where
  review_id : String
  user_id : String
  book_id : String
  rating : Int
  review_text : List Char
deriving DecidableEq

/-- The loop of `process_reviews` of `the_better_extract_files.py` (the
several review files are modelled as one concatenated stream, which the
`break` propagation makes equivalent): skip unparseable lines, skip records
with `record.get("rating", 0) == 0`, write the row, `break` once
`MAX_REVIEWS` rows are written. -/
def better_reviews_loop :
    List (Option ReviewRec) → List ReviewRow2 → Nat → List ReviewRow2 × Nat
  | [], rows, total => (rows, total)
  | line :: rest, rows, total =>
    match line with
    | none => better_reviews_loop rest rows total
    | some record =>
      if record.rating.getD 0 = 0 then better_reviews_loop rest rows total
      else
        let rows1 := rows ++ [{ review_id := record.review_id
                                user_id := record.user_id
                                book_id := record.book_id
                                rating := record.rating.getD 0
                                review_text := safe_truncate record.review_text 1500 }]
        if MAX_REVIEWS ≤ total + 1 then (rows1, total + 1)
        else better_reviews_loop rest rows1 (total + 1)

/-- `process_reviews` of `the_better_extract_files.py`: the written rows. -/
def better_process_reviews (input : List (Option ReviewRec)) : List ReviewRow2 :=
  (better_reviews_loop input [] 0).1

/-- The end-of-stage number that stage prints (`total_count`). -/
def better_reviews_report (input : List (Option ReviewRec)) : Nat :=
  (better_reviews_loop input [] 0).2

/-- A row of a CSV interactions file as read by `csv.DictReader`.  The
source computes `float(row.get("rating", 0))` and falls back to `0` on
`ValueError`; the embedding carries the parse result as `rating : Option ℚ`
(`none` = unparseable). -/
structure InterCsvRow where
  user_id : String
  book_id : String
  rating : Option ℚ
  is_read : String
  is_reviewed : String
deriving DecidableEq

/-- A parsed line of a JSON interactions file. -/
structure InterRec where
  user_id : String
  book_id : String
  rating : Option Int
  is_read : Bool
  is_reviewed : Bool
deriving DecidableEq

/-- CSV phase of `process_interactions`: drop rows whose parsed rating is `0`
(or unparseable), write the row verbatim, `break` at `MAX_INTERACTIONS`. -/
def inter_csv_loop :
    List InterCsvRow → List InterCsvRow → Nat → List InterCsvRow × Nat
  | [], kept, total => (kept, total)
  | row :: rest, kept, total =>
    if row.rating.getD 0 = 0 then inter_csv_loop rest kept total
    else
      let kept1 := kept ++ [row]
      if MAX_INTERACTIONS ≤ total + 1 then (kept1, total + 1)
      else inter_csv_loop rest kept1 (total + 1)

/-- JSON phase of `process_interactions`: skip unparseable lines, drop
records with `record.get("rating", 0) == 0`, write the row, `break` at
`MAX_INTERACTIONS`. -/
def inter_json_loop :
    List (Option InterRec) → List InterRec → Nat → List InterRec × Nat
  | [], kept, total => (kept, total)
  | line :: rest, kept, total =>
    match line with
    | none => inter_json_loop rest kept total
    | some record =>
      if record.rating.getD 0 = 0 then inter_json_loop rest kept total
      else
        let kept1 := kept ++ [record]
        if MAX_INTERACTIONS ≤ total + 1 then (kept1, total + 1)
        else inter_json_loop rest kept1 (total + 1)

/-- `process_interactions` of `the_better_extract_files.py`: the CSV phase,
then — only while the cap is not yet reached — the JSON phase continuing the
same running total into the same output file. -/
def process_interactions (csvRows : List InterCsvRow)
    (jsonLines : List (Option InterRec)) : List InterCsvRow × List InterRec :=
  let c := inter_csv_loop csvRows [] 0
  if c.2 < MAX_INTERACTIONS then (c.1, (inter_json_loop jsonLines [] c.2).1)
  else (c.1, [])

/- ----------------------------------------------------------------------
`Extra_formattingcode.py`
---------------------------------------------------------------------- -/

/-- A row of `goodreads_interactions.csv` under the dtypes the script
declares (`user_id, book_id, is_read, is_reviewed : int`,
`rating : float`, the latter modelled as an exact `ℚ`). -/
structure Interaction where
  user_id : Int
  book_id : Int
  is_read : Int
  rating : ℚ
  is_reviewed : Int
deriving DecidableEq

/-- Step 1 of the script: keep interactions with `is_reviewed == 0`,
`rating != 0` and a `book_id` present in `books.csv`. -/
def filtered_df (interactions : List Interaction) (valid_books : List Int) :
    List Interaction :=
  interactions.filter
    (fun r => decide (r.is_reviewed = 0 ∧ r.rating ≠ 0 ∧ r.book_id ∈ valid_books))

/-- `value_counts()` of the `user_id` column: occurrence counts sorted by
descending count.  pandas leaves the relative order of equal counts
implementation-defined; the embedding fixes first-seen order (no property
proved below depends on the tie order). -/
def value_counts (rows : List Interaction) : List (Int × Nat) :=
  sortDesc (rows.foldl (fun m r => bump m r.user_id) [])

/-- `cumulative_sum[cumulative_sum <= B].index`: the running sum over the
count list, filtered to the entries whose running sum is still `≤ B`. -/
def cumFilter {α : Type} (B : Nat) : Nat → List (α × Nat) → List α
  | _, [] => []
  | acc, (k, c) :: rest =>
    if acc + c ≤ B then k :: cumFilter B (acc + c) rest
    else cumFilter B (acc + c) rest

/-- The literal `3_000_000` of `Extra_formattingcode.py`. -/
def BUDGET : Nat := 3000000

/-- `top_user_ids` of `Extra_formattingcode.py`. -/
def top_user_ids (rows : List Interaction) : List Int :=
  cumFilter BUDGET 0 (value_counts rows)

/-- Steps 3–4 of the script: keep the interactions of the selected users;
`df.sample(n=3_000_000, random_state=42)` (a fixed pseudorandom 3M-row
subset, taken only when the data exceed 3M rows) is modelled as an arbitrary
fixed 3M-row subset — no property proved below enters that branch. -/
def sampled_interactions (interactions : List Interaction)
    (valid_books : List Int) : List Interaction :=
  let f := filtered_df interactions valid_books
  let kept := top_user_ids f
  let s := f.filter (fun r => decide (r.user_id ∈ kept))
  if 3000000 < s.length then s.take 3000000 else s

/- ----------------------------------------------------------------------
`sample.py`  (reads the CSVs of `the_better_extract_files.py` back)
---------------------------------------------------------------------- -/

/-- A row of `reviews.csv` / `interactions.csv` as read back (only the two
id columns are consulted; ids contain no surrounding whitespace, so
`.strip()` is the identity on them). -/
structure IdsCsvRow where
  user_id : String
  book_id : String
deriving DecidableEq

/-- A row of `books.csv` as read back. -/
structure BookCsvRow where
  book_id : String
deriving DecidableEq

/-- A row of `users.csv` as read back. -/
structure UserCsvRow where
  user_id : String
deriving DecidableEq

/-- A row of `authors.csv` as read back. -/
structure AuthorCsvRow where
  author_id : String
  name : String
  role : String
  books : List Char
deriving DecidableEq

/-- Python `s.split(";")` on a string (never returns an empty list). -/
def splitSemi : List Char → List (List Char)
  | [] => [[]]
  | c :: rest =>
    if c = ';' then [] :: splitSemi rest
    else
      match splitSemi rest with
      | [] => [[c]]
      | g :: gs => (c :: g) :: gs

/-- `";".join(groups)`. -/
def joinSemi : List (List Char) → List Char
  | [] => []
  | [g] => g
  | g :: g₂ :: gs => g ++ ';' :: joinSemi (g₂ :: gs)

/-- `filter_interactions` (and, identically, `filter_reviews`): keep the rows
whose `user_id` is a kept user and whose `book_id` is a kept book. -/
def filter_interactions (rows : List IdsCsvRow)
    (kept_users kept_books : List String) : List IdsCsvRow :=
  rows.filter (fun r => decide (r.user_id ∈ kept_users ∧ r.book_id ∈ kept_books))

/-- `filter_books`. -/
def filter_books (rows : List BookCsvRow) (kept_books : List String) :
    List BookCsvRow :=
  rows.filter (fun r => decide (r.book_id ∈ kept_books))

/-- `filter_users`. -/
def filter_users (rows : List UserCsvRow) (kept_users : List String) :
    List UserCsvRow :=
  rows.filter (fun r => decide (r.user_id ∈ kept_users))

/-- `filter_authors`: split the `books` column on `";"`, keep the book ids
that are kept books, drop the author when none remain. -/
def filter_authors (rows : List AuthorCsvRow) (kept_books : List String) :
    List AuthorCsvRow :=
  rows.foldl
    (fun out row =>
      if row.books = [] then out
      else
        let filtered := (splitSemi row.books).filter
          (fun b => decide (String.mk b ∈ kept_books))
        if filtered = [] then out
        else out ++ [{ row with books := joinSemi filtered }])
    []

/-- The files `sample.py` may find (`none` = missing). -/
structure SampleWorld where
  reviews_csv : Option (List IdsCsvRow)
  interactions_csv : Option (List IdsCsvRow)
  books_csv : Option (List BookCsvRow)
  authors_csv : Option (List AuthorCsvRow)
  users_csv : Option (List UserCsvRow)

/-- What `sample.py`'s `main` leaves behind: at most one error message, and
the five filtered CSVs (each `none` when never written — either because the
run returned early or because that input file was missing). -/
structure SampleOutputs where
  error : Option String
  interactions_out : Option (List IdsCsvRow)
  books_out : Option (List BookCsvRow)
  authors_out : Option (List AuthorCsvRow)
  users_out : Option (List UserCsvRow)
  reviews_out : Option (List IdsCsvRow)
deriving DecidableEq

/-- `main` of `sample.py`: a missing `reviews.csv` prints a single
`ERROR` naming the file and returns before any downstream stage; otherwise
the kept-user/kept-book sets are collected from `reviews.csv` and every
dependent file present is filtered. -/
def sample_main (w : SampleWorld) : SampleOutputs :=
  match w.reviews_csv with
  | none =>
    { error := some "ERROR: reviews.csv not found."
      interactions_out := none, books_out := none, authors_out := none
      users_out := none, reviews_out := none }
  | some reviews =>
    let kept_users := reviews.filterMap
      (fun r => if r.user_id = "" then none else some r.user_id)
    let kept_books := reviews.filterMap
      (fun r => if r.book_id = "" then none else some r.book_id)
    { error := none
      interactions_out := w.interactions_csv.map
        (fun rows => filter_interactions rows kept_users kept_books)
      books_out := w.books_csv.map (fun rows => filter_books rows kept_books)
      authors_out := w.authors_csv.map (fun rows => filter_authors rows kept_books)
      users_out := w.users_csv.map (fun rows => filter_users rows kept_users)
      reviews_out := some (filter_interactions reviews kept_users kept_books) }

/- ----------------------------------------------------------------------
Statement helpers and concrete inputs used by the theorems below
---------------------------------------------------------------------- -/

/-- A run of the identifier remapper: the state after serving a sequence of
lookups (each lookup is one call of `get_mapped_user_id` or
`get_mapped_book_id` on the respective map, starting from the empty map and
counter 1). -/
def run_map (reqs : List String) : MapState :=
  reqs.foldl (fun s o => (get_mapped o s).2) initMap

/-- Total of the counts in a key/count list. -/
def sumCounts {α : Type} (l : List (α × Nat)) : Nat := (l.map Prod.snd).sum

/-- Characterisation helper: the distinct non-empty user ids of a review
stream in order of first appearance. -/
def firstSeenUsers (input : List (Option ReviewRec)) : List String :=
  input.foldl
    (fun seen line =>
      match line with
      | none => seen
      | some r =>
        if r.user_id = "" then seen
        else if r.user_id ∈ seen then seen else seen ++ [r.user_id])
    []

/-- Characterisation helper: the first parseable author record carrying a
given `author_id`. -/
def firstRecWith (a : String) : List (Option AuthorRec) → Option AuthorRec
  | [] => none
  | line :: rest =>
    match line with
    | none => firstRecWith a rest
    | some r => if r.author_id = a then some r else firstRecWith a rest

/-- A parseable review record with all-default ancillary fields. -/
def mkRev (u b : String) : Option ReviewRec :=
  some { review_id := "r", user_id := u, book_id := b, rating := some 5,
         review_text := [] }

/-- Twenty distinct users, one review each, all of book `"b1"`: the smallest
shape on which the 5% fraction policy keeps exactly one user. -/
def baseReviews : List (Option ReviewRec) :=
  [mkRev "u01" "b1", mkRev "u02" "b1", mkRev "u03" "b1", mkRev "u04" "b1",
   mkRev "u05" "b1", mkRev "u06" "b1", mkRev "u07" "b1", mkRev "u08" "b1",
   mkRev "u09" "b1", mkRev "u10" "b1", mkRev "u11" "b1", mkRev "u12" "b1",
   mkRev "u13" "b1", mkRev "u14" "b1", mkRev "u15" "b1", mkRev "u16" "b1",
   mkRev "u17" "b1", mkRev "u18" "b1", mkRev "u19" "b1", mkRev "u20" "b1"]

/-- `baseReviews` plus a second review by `"u01"`, making `"u01"` the single
top user. -/
def revsTop : List (Option ReviewRec) := baseReviews ++ [mkRev "u01" "b1"]

/-- `baseReviews` plus a second review by `"u01"` whose `book_id` field is
absent (read back as `""`). -/
def revsEmptyBook : List (Option ReviewRec) := baseReviews ++ [mkRev "u01" ""]

/-- A world whose reviews stream is `revsTop` but whose book-metadata file
contains no record for `"b1"`. -/
def worldNoB1 : ExtractWorld :=
  { reviews_src := some revsTop
    genres_src := some []
    books_src := some [some { book_id := "x9", title := "T", description := [] }] }

/-- A world with the reviews file missing but a book-metadata file present. -/
def worldNoReviews : ExtractWorld :=
  { reviews_src := none
    genres_src := none
    books_src := some [some { book_id := "b1", title := "T", description := [] }] }

/-- Two raw author records sharing `author_id` `"a1"`: one contributes book
`"12"`, the other book `"1"` (note `"1"` is a substring of `"12"`). -/
def authRec12 : Option AuthorRec :=
  some { author_id := "a1", name := "N", role := "author", book_id := "12" }

def authRec1 : Option AuthorRec :=
  some { author_id := "a1", name := "N", role := "author", book_id := "1" }

/-- A parseable review record used by the parse-error experiments. -/
def rev7 : Option ReviewRec := mkRev "u1" "b1"

/-- Invariant of the identifier remapper: the counter is one past the map
size, the values are exactly `1, …, n` in insertion order, and the keys are
pairwise distinct. -/
def MapInv (s : MapState) : Prop :=
  s.next = s.map.length + 1 ∧
  s.map.map Prod.snd = List.range' 1 s.map.length ∧
  (s.map.map Prod.fst).Nodup

/- ----------------------------------------------------------------------
Theorems.  General lemmas about the dict model first.
---------------------------------------------------------------------- -/

theorem lookupA_eq_none_iff {α β : Type} [DecidableEq α] {k : α}
    {m : List (α × β)} : lookupA k m = none ↔ k ∉ m.map Prod.fst := by
  induction m with
  | nil => simp [lookupA]
  | cons p rest ih =>
    obtain ⟨k₁, v⟩ := p
    by_cases h : k₁ = k
    · subst h
      simp [lookupA]
    · have h2 : ¬ k = k₁ := fun e => h e.symm
      simp [lookupA, h, h2, ih]

theorem lookupA_mem {α β : Type} [DecidableEq α] {k : α} {v : β}
    {m : List (α × β)} (h : lookupA k m = some v) : (k, v) ∈ m := by
  induction m with
  | nil => simp [lookupA] at h
  | cons p rest ih =>
    obtain ⟨k₁, v₁⟩ := p
    by_cases hk : k₁ = k
    · subst hk
      rw [lookupA, if_pos rfl, Option.some.injEq] at h
      subst h
      exact List.mem_cons_self _ _
    · rw [lookupA, if_neg hk] at h
      exact List.mem_cons_of_mem _ (ih h)

theorem lookupA_append_left {α β : Type} [DecidableEq α] {k : α} {v : β}
    {m₁ : List (α × β)} (m₂ : List (α × β)) (h : lookupA k m₁ = some v) :
    lookupA k (m₁ ++ m₂) = some v := by
  induction m₁ with
  | nil => simp [lookupA] at h
  | cons p rest ih =>
    obtain ⟨k₁, v₁⟩ := p
    by_cases hk : k₁ = k
    · simp only [lookupA, if_pos hk] at h
      simpa [lookupA, if_pos hk] using h
    · simp only [lookupA, if_neg hk] at h
      simpa [lookupA, if_neg hk] using ih h

theorem lookupA_append_right {α β : Type} [DecidableEq α] {k : α}
    {m₁ : List (α × β)} (m₂ : List (α × β)) (h : lookupA k m₁ = none) :
    lookupA k (m₁ ++ m₂) = lookupA k m₂ := by
  induction m₁ with
  | nil => simp
  | cons p rest ih =>
    obtain ⟨k₁, v₁⟩ := p
    by_cases hk : k₁ = k
    · simp [lookupA, if_pos hk] at h
    · simp only [lookupA, if_neg hk] at h
      simpa [lookupA, if_neg hk] using ih h

theorem lookupA_of_mem_nodup {α β : Type} [DecidableEq α] {k : α} {v : β}
    {m : List (α × β)} (hm : (m.map Prod.fst).Nodup) (h : (k, v) ∈ m) :
    lookupA k m = some v := by
  induction m with
  | nil => simp at h
  | cons p rest ih =>
    obtain ⟨k₁, v₁⟩ := p
    simp only [List.map_cons, List.nodup_cons] at hm
    rcases List.mem_cons.mp h with h₁ | h₁
    · obtain ⟨e₁, e₂⟩ := Prod.ext_iff.mp h₁
      simp only at e₁ e₂
      subst e₁
      subst e₂
      simp [lookupA]
    · have hk : k₁ ≠ k := by
        intro e
        subst e
        exact hm.1 (List.mem_map.mpr ⟨(k₁, v), h₁, rfl⟩)
      simp only [lookupA, if_neg hk]
      exact ih hm.2 h₁

/- Lemmas about one `get_mapped` call. -/

theorem get_mapped_preserves (o : String) {s : MapState} (h : MapInv s) :
    MapInv (get_mapped o s).2 := by
  obtain ⟨h₁, h₂, h₃⟩ := h
  unfold get_mapped
  cases hc : lookupA o s.map with
  | some v => exact ⟨h₁, h₂, h₃⟩
  | none =>
    refine ⟨by simp [h₁], ?_, ?_⟩
    · simp only [List.map_append, List.length_append, List.map_cons,
        List.map_nil, List.length_cons, List.length_nil]
      rw [h₂, h₁]
      have := @List.range'_concat 1 1 s.map.length
      simp only [one_mul] at this
      rw [this]
      simp [Nat.add_comm]
    · simp only [List.map_append, List.map_cons, List.map_nil]
      have ho : o ∉ s.map.map Prod.fst := lookupA_eq_none_iff.mp hc
      simp [List.nodup_append, h₃, ho]

theorem get_mapped_grows (o : String) (s : MapState) :
    ∃ t, (get_mapped o s).2.map = s.map ++ t := by
  unfold get_mapped
  cases hc : lookupA o s.map with
  | some v => exact ⟨[], by simp⟩
  | none => exact ⟨[(o, s.next)], rfl⟩

theorem get_mapped_lookup (o : String) (s : MapState) :
    lookupA o (get_mapped o s).2.map = some (get_mapped o s).1 := by
  unfold get_mapped
  cases hc : lookupA o s.map with
  | some v => simpa using hc
  | none =>
    simp only
    rw [lookupA_append_right _ hc]
    simp [lookupA]

theorem get_mapped_idem (o : String) (s : MapState) :
    get_mapped o (get_mapped o s).2 = get_mapped o s := by
  have h := get_mapped_lookup o s
  rw [get_mapped.eq_def, h]

theorem run_map_inv (reqs : List String) : MapInv (run_map reqs) := by
  suffices h : ∀ (l : List String) (s : MapState), MapInv s →
      MapInv (l.foldl (fun s o => (get_mapped o s).2) s) by
    exact h reqs initMap ⟨rfl, rfl, List.nodup_nil⟩
  intro l
  induction l with
  | nil => intro s hs; exact hs
  | cons o rest ih =>
    intro s hs
    exact ih _ (get_mapped_preserves o hs)

theorem run_map_keys (reqs : List String) :
    ((run_map reqs).map.map Prod.fst).toFinset = reqs.toFinset := by
  suffices h : ∀ (l : List String) (s : MapState),
      ((l.foldl (fun s o => (get_mapped o s).2) s).map.map Prod.fst).toFinset =
        (s.map.map Prod.fst).toFinset ∪ l.toFinset by
    simpa [run_map, initMap] using h reqs initMap
  intro l
  induction l with
  | nil => intro s; simp
  | cons o rest ih =>
    intro s
    rw [List.foldl_cons, ih]
    have : (((get_mapped o s).2.map.map Prod.fst).toFinset) =
        (s.map.map Prod.fst).toFinset ∪ {o} := by
      unfold get_mapped
      cases hc : lookupA o s.map with
      | some v =>
        have : o ∈ s.map.map Prod.fst := by
          by_contra hn
          rw [lookupA_eq_none_iff.mpr hn] at hc
          exact Option.noConfusion hc
        simp only
        ext x
        simp only [Finset.mem_union, Finset.mem_singleton, List.mem_toFinset]
        constructor
        · exact Or.inl
        · rintro (hx | rfl)
          · exact hx
          · exact this
      | none => simp
    rw [this]
    ext x
    simp [or_assoc, or_comm, or_left_comm]

/-- C2: the identifier remapper allocates `1, 2, 3, …` in first-seen order
(counter = size + 1, values exactly `1..n`), holds one entry per distinct
original id looked up, is idempotent for repeated lookups, injective on
distinct original ids, and append-only across further lookups. -/
theorem claim_C2_remapper (reqs : List String) :
    (run_map reqs).next = (run_map reqs).map.length + 1 ∧
    (run_map reqs).map.map Prod.snd = List.range' 1 (run_map reqs).map.length ∧
    (run_map reqs).map.length = reqs.toFinset.card ∧
    (∀ o : String, get_mapped o (get_mapped o (run_map reqs)).2 =
      get_mapped o (run_map reqs)) ∧
    (∀ a b va vb, a ≠ b → lookupA a (run_map reqs).map = some va →
      lookupA b (run_map reqs).map = some vb → va ≠ vb) ∧
    (∀ o, lookupA o (run_map reqs).map = none →
      (get_mapped o (run_map reqs)).1 = (run_map reqs).map.length + 1) ∧
    (∀ more, ∃ t, (run_map (reqs ++ more)).map = (run_map reqs).map ++ t) := by
  obtain ⟨h₁, h₂, h₃⟩ := run_map_inv reqs
  refine ⟨h₁, h₂, ?_, ?_, ?_, ?_, ?_⟩
  · have hkeys := run_map_keys reqs
    have hlen : ((run_map reqs).map.map Prod.fst).toFinset.card =
        (run_map reqs).map.length := by
      rw [List.toFinset_card_of_nodup h₃, List.length_map]
    rw [← hlen, hkeys]
  · intro o
    exact get_mapped_idem o (run_map reqs)
  · intro a b va vb hab ha hb
    intro he
    subst he
    have hma := lookupA_mem ha
    have hmb := lookupA_mem hb
    have hnd : ((run_map reqs).map.map Prod.snd).Nodup := by
      rw [h₂]; exact List.nodup_range' 1 _
    have := List.inj_on_of_nodup_map hnd hma hmb rfl
    exact hab (congrArg Prod.fst this)
  · intro o ho
    unfold get_mapped
    rw [ho, h₁]
  · intro more
    rw [run_map, List.foldl_append]
    suffices h : ∀ (l : List String) (s : MapState),
        ∃ t, (l.foldl (fun s o => (get_mapped o s).2) s).map = s.map ++ t by
      exact h more (run_map reqs)
    intro l
    induction l with
    | nil => intro s; exact ⟨[], by simp⟩
    | cons o rest ih =>
      intro s
      obtain ⟨t₁, ht₁⟩ := get_mapped_grows o s
      obtain ⟨t₂, ht₂⟩ := ih (get_mapped o s).2
      exact ⟨t₁ ++ t₂, by rw [List.foldl_cons, ht₂, ht₁, List.append_assoc]⟩

/-- Witness for C2 at the concrete lookup sequence `["u", "v", "u"]`. -/
theorem claim_C2_witness :
    ("u" : String) ≠ "v" ∧
    lookupA "u" (run_map ["u", "v", "u"]).map = some 1 ∧
    lookupA "v" (run_map ["u", "v", "u"]).map = some 2 ∧
    (1 : Nat) ≠ 2 := by
  refine ⟨by decide, by decide, by decide, ?_⟩
  exact (claim_C2_remapper ["u", "v", "u"]).2.2.2.2.1 "u" "v" 1 2
    (by decide) (by decide) (by decide)

/-- C8: `safe_truncate` leaves a text of length `≤ max_length` unchanged and
cuts a longer text to its first `max_length` characters plus the marker
`"..."`, for a total length of exactly `max_length + 3`. -/
theorem claim_C8_safe_truncate (text : List Char) (m : Nat) :
    (text.length ≤ m → safe_truncate text m = text) ∧
    (m < text.length →
      safe_truncate text m = text.take m ++ ['.', '.', '.'] ∧
      (safe_truncate text m).length = m + 3) := by
  constructor
  · intro h
    unfold safe_truncate
    by_cases he : text = []
    · simp [he]
    · simp [he, h]
  · intro h
    have he : text ≠ [] := by
      intro e
      rw [e] at h
      simp at h
    have hn : ¬ text.length ≤ m := not_le.mpr h
    have heq : safe_truncate text m = text.take m ++ ['.', '.', '.'] := by
      simp [safe_truncate, he, hn]
    refine ⟨heq, ?_⟩
    rw [heq]
    simp only [List.length_append, List.length_take]
    have : min m text.length = m := Nat.min_eq_left (Nat.le_of_lt h)
    simp [this]

/-- Witness for C8 at `"ab"`/limit 5 (unchanged) and `"abcd"`/limit 2
(truncated to length 5). -/
theorem claim_C8_witness :
    safe_truncate ['a', 'b'] 5 = ['a', 'b'] ∧
    safe_truncate ['a', 'b', 'c', 'd'] 2 =
      List.take 2 ['a', 'b', 'c', 'd'] ++ ['.', '.', '.'] ∧
    (safe_truncate ['a', 'b', 'c', 'd'] 2).length = 2 + 3 := by
  refine ⟨(claim_C8_safe_truncate ['a', 'b'] 5).1 (by decide), ?_, ?_⟩
  · exact ((claim_C8_safe_truncate ['a', 'b', 'c', 'd'] 2).2 (by decide)).1
  · exact ((claim_C8_safe_truncate ['a', 'b', 'c', 'd'] 2).2 (by decide)).2

/- Lemmas for the rating filter of `the_better_extract_files.py`. -/

theorem better_reviews_loop_rating (input : List (Option ReviewRec)) :
    ∀ (rows : List ReviewRow2) (total : Nat),
      (∀ r ∈ rows, r.rating ≠ 0) →
      ∀ row ∈ (better_reviews_loop input rows total).1, row.rating ≠ 0 := by
  induction input with
  | nil =>
    intro rows total h row hrow
    exact h row hrow
  | cons line rest ih =>
    intro rows total h row hrow
    cases line with
    | none =>
      simp only [better_reviews_loop] at hrow
      exact ih rows total h row hrow
    | some record =>
      by_cases hr : record.rating.getD 0 = 0
      · simp only [better_reviews_loop, if_pos hr] at hrow
        exact ih rows total h row hrow
      · have hnew : ∀ r ∈ rows ++
            [({ review_id := record.review_id, user_id := record.user_id,
                book_id := record.book_id, rating := record.rating.getD 0,
                review_text := safe_truncate record.review_text 1500 } :
              ReviewRow2)],
            r.rating ≠ 0 := by
          intro r hrm
          rcases List.mem_append.mp hrm with hl | hl
          · exact h r hl
          · rcases List.mem_singleton.mp hl with rfl
            exact hr
        by_cases hm : MAX_REVIEWS ≤ total + 1
        · simp only [better_reviews_loop, if_neg hr, if_pos hm] at hrow
          exact hnew row hrow
        · simp only [better_reviews_loop, if_neg hr, if_neg hm] at hrow
          exact ih _ _ hnew row hrow

theorem inter_csv_loop_rating (rows : List InterCsvRow) :
    ∀ (kept : List InterCsvRow) (total : Nat),
      (∀ r ∈ kept, r.rating.getD 0 ≠ 0) →
      ∀ row ∈ (inter_csv_loop rows kept total).1, row.rating.getD 0 ≠ 0 := by
  induction rows with
  | nil =>
    intro kept total h row hrow
    exact h row hrow
  | cons r rest ih =>
    intro kept total h row hrow
    by_cases hr : r.rating.getD 0 = 0
    · simp only [inter_csv_loop, if_pos hr] at hrow
      exact ih kept total h row hrow
    · have hnew : ∀ x ∈ kept ++ [r], x.rating.getD 0 ≠ 0 := by
        intro x hxm
        rcases List.mem_append.mp hxm with hl | hl
        · exact h x hl
        · rcases List.mem_singleton.mp hl with rfl
          exact hr
      by_cases hm : MAX_INTERACTIONS ≤ total + 1
      · simp only [inter_csv_loop, if_neg hr, if_pos hm] at hrow
        exact hnew row hrow
      · simp only [inter_csv_loop, if_neg hr, if_neg hm] at hrow
        exact ih _ _ hnew row hrow

theorem inter_json_loop_rating (lines : List (Option InterRec)) :
    ∀ (kept : List InterRec) (total : Nat),
      (∀ r ∈ kept, r.rating.getD 0 ≠ 0) →
      ∀ rec ∈ (inter_json_loop lines kept total).1, rec.rating.getD 0 ≠ 0 := by
  induction lines with
  | nil =>
    intro kept total h rec hrec
    exact h rec hrec
  | cons line rest ih =>
    intro kept total h rec hrec
    cases line with
    | none =>
      simp only [inter_json_loop] at hrec
      exact ih kept total h rec hrec
    | some record =>
      by_cases hr : record.rating.getD 0 = 0
      · simp only [inter_json_loop, if_pos hr] at hrec
        exact ih kept total h rec hrec
      · have hnew : ∀ x ∈ kept ++ [record], x.rating.getD 0 ≠ 0 := by
          intro x hxm
          rcases List.mem_append.mp hxm with hl | hl
          · exact h x hl
          · rcases List.mem_singleton.mp hl with rfl
            exact hr
        by_cases hm : MAX_INTERACTIONS ≤ total + 1
        · simp only [inter_json_loop, if_neg hr, if_pos hm] at hrec
          exact hnew rec hrec
        · simp only [inter_json_loop, if_neg hr, if_neg hm] at hrec
          exact ih _ _ hnew rec hrec

theorem better_reviews_loop_eq (input : List (Option ReviewRec)) :
    ∀ (rows : List ReviewRow2) (total : Nat),
      total + input.length ≤ MAX_REVIEWS →
      better_reviews_loop input rows total =
        (rows ++ ((input.filterMap id).filter
            (fun r => decide (r.rating.getD 0 ≠ 0))).map
            (fun record =>
              { review_id := record.review_id
                user_id := record.user_id
                book_id := record.book_id
                rating := record.rating.getD 0
                review_text := safe_truncate record.review_text 1500 }),
         total + ((input.filterMap id).filter
            (fun r => decide (r.rating.getD 0 ≠ 0))).length) := by
  induction input with
  | nil =>
    intro rows total _
    simp [better_reviews_loop]
  | cons line rest ih =>
    intro rows total hle
    cases line with
    | none =>
      simp only [List.length_cons] at hle
      have := ih rows total (by omega)
      simpa only [better_reviews_loop, List.filterMap_cons_none, id] using this
    | some record =>
      simp only [List.length_cons] at hle
      by_cases hr : record.rating.getD 0 = 0
      · have := ih rows total (by omega)
        rw [better_reviews_loop, if_pos hr]
        rw [this]
        simp [hr]
      · by_cases hm : MAX_REVIEWS ≤ total + 1
        · have hrest : rest.length = 0 := by omega
          have hrest2 : rest = [] := List.length_eq_zero.mp hrest
          subst hrest2
          rw [better_reviews_loop, if_neg hr, if_pos hm]
          simp [hr]
        · rw [better_reviews_loop, if_neg hr, if_neg hm]
          rw [ih _ (total + 1) (by omega)]
          simp [hr, List.append_assoc]
          omega

/-- C9: rows written by `process_reviews` and `process_interactions` of
`the_better_extract_files.py` always carry a non-zero rating; any record
whose rating field is `0` or absent (defaulting to `0`) is dropped — for
inputs within the record cap, the review output is exactly the non-zero-rated
parseable records, transformed. -/
theorem claim_C9_zero_rating (input : List (Option ReviewRec))
    (csvRows : List InterCsvRow) (jsonLines : List (Option InterRec)) :
    (∀ row ∈ better_process_reviews input, row.rating ≠ 0) ∧
    (∀ row ∈ (process_interactions csvRows jsonLines).1, row.rating.getD 0 ≠ 0) ∧
    (∀ rec ∈ (process_interactions csvRows jsonLines).2, rec.rating.getD 0 ≠ 0) ∧
    (input.length ≤ MAX_REVIEWS →
      better_process_reviews input =
        ((input.filterMap id).filter
            (fun r => decide (r.rating.getD 0 ≠ 0))).map
            (fun record =>
              { review_id := record.review_id
                user_id := record.user_id
                book_id := record.book_id
                rating := record.rating.getD 0
                review_text := safe_truncate record.review_text 1500 })) := by
  refine ⟨?_, ?_, ?_, ?_⟩
  · intro row hrow
    exact better_reviews_loop_rating input [] 0 (by simp) row hrow
  · intro row hrow
    unfold process_interactions at hrow
    by_cases hm : (inter_csv_loop csvRows [] 0).2 < MAX_INTERACTIONS
    · rw [if_pos hm] at hrow
      exact inter_csv_loop_rating csvRows [] 0 (by simp) row hrow
    · rw [if_neg hm] at hrow
      exact inter_csv_loop_rating csvRows [] 0 (by simp) row hrow
  · intro rec hrec
    unfold process_interactions at hrec
    by_cases hm : (inter_csv_loop csvRows [] 0).2 < MAX_INTERACTIONS
    · rw [if_pos hm] at hrec
      exact inter_json_loop_rating jsonLines [] _ (by simp) rec hrec
    · rw [if_neg hm] at hrec
      simp at hrec
  · intro hle
    unfold better_process_reviews
    rw [better_reviews_loop_eq input [] 0 (by simpa using hle)]
    simp

/-- Witness for C9: a rating-3 review is kept with non-zero rating, and on a
concrete two-record stream (ratings 3 and 0) the output keeps exactly the
rating-3 record. -/
theorem claim_C9_witness :
    (∀ row ∈ better_process_reviews
        [some { review_id := "r1", user_id := "u", book_id := "b",
                rating := some 3, review_text := [] },
         some { review_id := "r2", user_id := "u", book_id := "b",
                rating := some 0, review_text := [] }], row.rating ≠ 0) ∧
    better_process_reviews
        [some { review_id := "r1", user_id := "u", book_id := "b",
                rating := some 3, review_text := [] },
         some { review_id := "r2", user_id := "u", book_id := "b",
                rating := some 0, review_text := [] }] =
      [{ review_id := "r1", user_id := "u", book_id := "b",
         rating := 3, review_text := [] }] := by
  constructor
  · exact (claim_C9_zero_rating
      [some { review_id := "r1", user_id := "u", book_id := "b",
              rating := some 3, review_text := [] },
       some { review_id := "r2", user_id := "u", book_id := "b",
              rating := some 0, review_text := [] }] [] []).1
  · exact ((claim_C9_zero_rating
      [some { review_id := "r1", user_id := "u", book_id := "b",
              rating := some 3, review_text := [] },
       some { review_id := "r2", user_id := "u", book_id := "b",
              rating := some 0, review_text := [] }] [] []).2.2.2
      (by decide)).trans (by decide)

/- Lemmas about pass 2 of `process_reviews` of `extract_files.py`. -/

theorem insertS_mem_self {α : Type} [DecidableEq α] (s : List α) (x : α) :
    x ∈ insertS s x := by
  unfold insertS
  by_cases h : x ∈ s
  · simp [h]
  · simp [h]

theorem insertS_mem_mono {α : Type} [DecidableEq α] {s : List α} {y : α}
    (x : α) (h : y ∈ s) : y ∈ insertS s x := by
  unfold insertS
  by_cases hx : x ∈ s
  · simpa [hx] using h
  · simp only [if_neg hx]
    exact List.mem_append_left _ h

theorem pass2Step_grows (top : List String) (st : Pass2State)
    (line : Option ReviewRec) :
    (∃ t, (pass2Step top st line).rows = st.rows ++ t) ∧
    (∃ t, (pass2Step top st line).book_id_map.map = st.book_id_map.map ++ t) ∧
    (∃ t, (pass2Step top st line).user_id_map.map = st.user_id_map.map ++ t) ∧
    (∀ b ∈ st.kept_books_old, b ∈ (pass2Step top st line).kept_books_old) ∧
    (∀ u ∈ st.kept_users_old, u ∈ (pass2Step top st line).kept_users_old) := by
  cases line with
  | none =>
    exact ⟨⟨[], by simp [pass2Step]⟩, ⟨[], by simp [pass2Step]⟩,
      ⟨[], by simp [pass2Step]⟩, fun b h => h, fun u h => h⟩
  | some record =>
    by_cases hu : record.user_id ∈ top
    · simp only [pass2Step, if_pos hu]
      obtain ⟨tb, htb⟩ := get_mapped_grows record.book_id st.book_id_map
      obtain ⟨tu, htu⟩ := get_mapped_grows record.user_id st.user_id_map
      exact ⟨⟨_, rfl⟩, ⟨tb, htb⟩, ⟨tu, htu⟩,
        fun b h => insertS_mem_mono _ h, fun u h => insertS_mem_mono _ h⟩
    · simp only [pass2Step, if_neg hu]
      exact ⟨⟨[], by simp⟩, ⟨[], by simp⟩, ⟨[], by simp⟩,
        fun b h => h, fun u h => h⟩

theorem pass2_fold_grows (top : List String) (input : List (Option ReviewRec)) :
    ∀ st : Pass2State,
    (∃ t, (input.foldl (pass2Step top) st).rows = st.rows ++ t) ∧
    (∃ t, (input.foldl (pass2Step top) st).book_id_map.map =
      st.book_id_map.map ++ t) ∧
    (∃ t, (input.foldl (pass2Step top) st).user_id_map.map =
      st.user_id_map.map ++ t) ∧
    (∀ b ∈ st.kept_books_old,
      b ∈ (input.foldl (pass2Step top) st).kept_books_old) ∧
    (∀ u ∈ st.kept_users_old,
      u ∈ (input.foldl (pass2Step top) st).kept_users_old) := by
  induction input with
  | nil =>
    intro st
    exact ⟨⟨[], by simp⟩, ⟨[], by simp⟩, ⟨[], by simp⟩,
      fun b h => h, fun u h => h⟩
  | cons line rest ih =>
    intro st
    obtain ⟨⟨t₁, h₁⟩, ⟨t₂, h₂⟩, ⟨t₃, h₃⟩, h₄, h₅⟩ :=
      pass2Step_grows top st line
    obtain ⟨⟨s₁, g₁⟩, ⟨s₂, g₂⟩, ⟨s₃, g₃⟩, g₄, g₅⟩ := ih (pass2Step top st line)
    refine ⟨⟨t₁ ++ s₁, ?_⟩, ⟨t₂ ++ s₂, ?_⟩, ⟨t₃ ++ s₃, ?_⟩, ?_, ?_⟩
    · rw [List.foldl_cons, g₁, h₁, List.append_assoc]
    · rw [List.foldl_cons, g₂, h₂, List.append_assoc]
    · rw [List.foldl_cons, g₃, h₃, List.append_assoc]
    · intro b hb
      exact g₄ b (h₄ b hb)
    · intro u hu
      exact g₅ u (h₅ u hu)

/-- Acceptance of a single record by pass 2: if a parseable record of a top
user occurs in the stream, its original `book_id` (whatever string it is,
including `""`) ends up in `kept_books_old`, in the book-id map, and on a
written row carrying the remapped value. -/
theorem pass2_fold_finds (top : List String) (input : List (Option ReviewRec)) :
    ∀ (st : Pass2State) (r : ReviewRec), some r ∈ input → r.user_id ∈ top →
      r.book_id ∈ (input.foldl (pass2Step top) st).kept_books_old ∧
      ∃ v, lookupA r.book_id
          (input.foldl (pass2Step top) st).book_id_map.map = some v ∧
        ∃ row ∈ (input.foldl (pass2Step top) st).rows, row.book_id = v := by
  induction input with
  | nil =>
    intro st r hmem
    simp at hmem
  | cons line rest ih =>
    intro st r hmem hu
    rcases List.mem_cons.mp hmem with hline | hmem2
    · subst hline
      obtain ⟨⟨t₁, h₁⟩, ⟨t₂, h₂⟩, _, h₄, _⟩ :=
        pass2_fold_grows top rest (pass2Step top st (some r))
      have hb : r.book_id ∈ (pass2Step top st (some r)).kept_books_old := by
        simp only [pass2Step, if_pos hu]
        exact insertS_mem_self _ _
      have hl : lookupA r.book_id (pass2Step top st (some r)).book_id_map.map =
          some (get_mapped r.book_id st.book_id_map).1 := by
        simp only [pass2Step, if_pos hu]
        exact get_mapped_lookup _ _
      have hrow : ∃ row ∈ (pass2Step top st (some r)).rows,
          row.book_id = (get_mapped r.book_id st.book_id_map).1 := by
        simp only [pass2Step, if_pos hu]
        exact ⟨_, List.mem_append_right _ (List.mem_singleton_self _), rfl⟩
      refine ⟨h₄ _ hb, (get_mapped r.book_id st.book_id_map).1, ?_, ?_⟩
      · rw [List.foldl_cons, h₂]
        exact lookupA_append_left _ hl
      · obtain ⟨row, hrm, hre⟩ := hrow
        refine ⟨row, ?_, hre⟩
        rw [List.foldl_cons, h₁]
        exact List.mem_append_left _ hrm
    · exact ih (pass2Step top st line) r hmem2 hu

/-- C10: pass 2 of `process_reviews` performs no membership pre-check on
`book_id`: a review by a kept user whose `book_id` field is absent (read as
`""`) is still accepted — `""` enters `kept_books_old`, receives a remapped
book identifier in the book-id map, and appears (remapped) on a written
row. -/
theorem claim_C10_empty_book_admitted (input : List (Option ReviewRec))
    (r : ReviewRec) (hmem : some r ∈ input)
    (hu : r.user_id ∈ top_users_old input) (hb : r.book_id = "") :
    "" ∈ (process_reviews input).kept_books_old ∧
    ∃ v, lookupA "" (process_reviews input).book_id_map.map = some v ∧
      ∃ row ∈ (process_reviews input).rows, row.book_id = v := by
  have h := pass2_fold_finds (top_users_old input) input initPass2 r hmem hu
  rw [hb] at h
  exact h

/-- Witness for C10 on `revsEmptyBook` (twenty users plus a second record of
the top user `"u01"` with an absent `book_id`). -/
theorem claim_C10_witness :
    "" ∈ (process_reviews revsEmptyBook).kept_books_old ∧
    ∃ v, lookupA "" (process_reviews revsEmptyBook).book_id_map.map = some v ∧
      ∃ row ∈ (process_reviews revsEmptyBook).rows, row.book_id = v :=
  claim_C10_empty_book_admitted revsEmptyBook
    { review_id := "r", user_id := "u01", book_id := "", rating := some 5,
      review_text := [] }
    (by decide) (by decide) rfl

/- Parse-failure insensitivity lemmas (claim C7). -/

theorem userCounts_skip (l₁ l₂ : List (Option ReviewRec)) :
    userCounts (l₁ ++ none :: l₂) = userCounts (l₁ ++ l₂) := by
  unfold userCounts
  rw [List.foldl_append, List.foldl_append, List.foldl_cons]

theorem top_users_old_skip (l₁ l₂ : List (Option ReviewRec)) :
    top_users_old (l₁ ++ none :: l₂) = top_users_old (l₁ ++ l₂) := by
  unfold top_users_old
  rw [userCounts_skip]

theorem process_reviews_skip (l₁ l₂ : List (Option ReviewRec)) :
    process_reviews (l₁ ++ none :: l₂) = process_reviews (l₁ ++ l₂) := by
  unfold process_reviews
  rw [top_users_old_skip, List.foldl_append, List.foldl_append, List.foldl_cons]
  rfl

theorem better_reviews_loop_skip (l₁ l₂ : List (Option ReviewRec)) :
    ∀ (rows : List ReviewRow2) (total : Nat),
      better_reviews_loop (l₁ ++ none :: l₂) rows total =
        better_reviews_loop (l₁ ++ l₂) rows total := by
  induction l₁ with
  | nil =>
    intro rows total
    rfl
  | cons line rest ih =>
    intro rows total
    cases line with
    | none =>
      simp only [List.cons_append, better_reviews_loop]
      exact ih rows total
    | some record =>
      by_cases hr : record.rating.getD 0 = 0
      · simp only [List.cons_append, better_reviews_loop, if_pos hr]
        exact ih rows total
      · by_cases hm : MAX_REVIEWS ≤ total + 1
        · simp only [List.cons_append, better_reviews_loop, if_neg hr, if_pos hm]
        · simp only [List.cons_append, better_reviews_loop, if_neg hr, if_neg hm]
          exact ih _ _

/-- Counterexample to C7 as stated: the end-of-stage reports of both review
passes are identical on two streams with different numbers of parse failures
(one vs. zero), so no running skip-count of parse failures is kept for
end-of-stage reporting — the reports carry users found, users kept and rows
written only. -/
theorem claim_C7_cex :
    reviews_report [none, rev7] = reviews_report [rev7] ∧
    better_reviews_report [none, rev7] = better_reviews_report [rev7] := by
  constructor
  · rfl
  · rfl

/-- C7 (amended): a line that fails to parse is skipped locally — it
terminates no pass, increments no frequency count and no output count, and
leaves every observable of the stage (including its end-of-stage report)
exactly as if the line were absent; in particular no skip-count of parse
failures is kept anywhere. -/
theorem claim_C7_parse_skip (l₁ l₂ : List (Option ReviewRec))
    (rows : List ReviewRow2) (total : Nat) :
    userCounts (l₁ ++ none :: l₂) = userCounts (l₁ ++ l₂) ∧
    process_reviews (l₁ ++ none :: l₂) = process_reviews (l₁ ++ l₂) ∧
    reviews_report (l₁ ++ none :: l₂) = reviews_report (l₁ ++ l₂) ∧
    better_reviews_loop (l₁ ++ none :: l₂) rows total =
      better_reviews_loop (l₁ ++ l₂) rows total := by
  refine ⟨userCounts_skip l₁ l₂, process_reviews_skip l₁ l₂, ?_,
    better_reviews_loop_skip l₁ l₂ rows total⟩
  unfold reviews_report
  rw [userCounts_skip, top_users_old_skip, process_reviews_skip]

/- Lemmas about the stable descending sort. -/

theorem mem_insertDesc {α : Type} (x : α × Nat) (l : List (α × Nat))
    (z : α × Nat) : z ∈ insertDesc x l ↔ z = x ∨ z ∈ l := by
  induction l with
  | nil => simp [insertDesc]
  | cons y ys ih =>
    by_cases h : x.2 ≤ y.2
    · simp only [insertDesc, if_pos h, List.mem_cons, ih]
      tauto
    · simp only [insertDesc, if_neg h, List.mem_cons]

theorem insertDesc_perm {α : Type} (x : α × Nat) (l : List (α × Nat)) :
    (insertDesc x l).Perm (x :: l) := by
  induction l with
  | nil => simp [insertDesc]
  | cons y ys ih =>
    by_cases h : x.2 ≤ y.2
    · simp only [insertDesc, if_pos h]
      exact (ih.cons y).trans (List.Perm.swap x y ys)
    · simp [insertDesc, if_neg h]

theorem insertDesc_sorted {α : Type} (x : α × Nat) {l : List (α × Nat)}
    (h : l.Pairwise (fun a b => b.2 ≤ a.2)) :
    (insertDesc x l).Pairwise (fun a b => b.2 ≤ a.2) := by
  induction l with
  | nil => simp [insertDesc]
  | cons y ys ih =>
    rcases List.pairwise_cons.mp h with ⟨hy, hys⟩
    by_cases hle : x.2 ≤ y.2
    · simp only [insertDesc, if_pos hle]
      refine List.pairwise_cons.mpr ⟨?_, ih hys⟩
      intro z hz
      rcases (mem_insertDesc x ys z).mp hz with rfl | hz₂
      · exact hle
      · exact hy z hz₂
    · simp only [insertDesc, if_neg hle]
      refine List.pairwise_cons.mpr ⟨?_, h⟩
      intro z hz
      rcases List.mem_cons.mp hz with rfl | hz₂
      · omega
      · exact Nat.le_trans (hy z hz₂) (by omega)

theorem insertDesc_filter {α : Type} (x : α × Nat) {l : List (α × Nat)}
    (h : l.Pairwise (fun a b => b.2 ≤ a.2)) (c : Nat) :
    (insertDesc x l).filter (fun z => decide (z.2 = c)) =
      if x.2 = c then l.filter (fun z => decide (z.2 = c)) ++ [x]
      else l.filter (fun z => decide (z.2 = c)) := by
  induction l with
  | nil =>
    by_cases hx : x.2 = c
    · simp [insertDesc, hx]
    · simp [insertDesc, hx]
  | cons y ys ih =>
    rcases List.pairwise_cons.mp h with ⟨hy, hys⟩
    by_cases hle : x.2 ≤ y.2
    · simp only [insertDesc, if_pos hle]
      by_cases hyc : y.2 = c
      · by_cases hx : x.2 = c
        · simp [List.filter, hyc, hx, ih hys]
        · simp [List.filter, hyc, hx, ih hys]
      · by_cases hx : x.2 = c
        · simp [List.filter, hyc, hx, ih hys]
        · simp [List.filter, hyc, hx, ih hys]
    · simp only [insertDesc, if_neg hle]
      have hyslt : ∀ z ∈ y :: ys, z.2 < x.2 := by
        intro z hz
        rcases List.mem_cons.mp hz with rfl | hz₂
        · omega
        · have := hy z hz₂
          omega
      rw [List.filter_cons]
      by_cases hx : x.2 = c
      · have hnil : (y :: ys).filter (fun z => decide (z.2 = c)) = [] := by
          rw [List.filter_eq_nil_iff]
          intro z hz
          have := hyslt z hz
          simp only [decide_eq_true_eq]
          omega
        simp [hx, hnil]
      · simp [hx]

theorem sortDesc_aux {α : Type} (l : List (α × Nat)) :
    ∀ acc : List (α × Nat), acc.Pairwise (fun a b => b.2 ≤ a.2) →
      (l.foldl (fun a x => insertDesc x a) acc).Pairwise
        (fun a b => b.2 ≤ a.2) ∧
      (l.foldl (fun a x => insertDesc x a) acc).Perm (acc ++ l) ∧
      ∀ c, (l.foldl (fun a x => insertDesc x a) acc).filter
          (fun z => decide (z.2 = c)) =
        acc.filter (fun z => decide (z.2 = c)) ++
          l.filter (fun z => decide (z.2 = c)) := by
  induction l with
  | nil =>
    intro acc h
    exact ⟨h, by simp, fun c => by simp⟩
  | cons x rest ih =>
    intro acc h
    obtain ⟨h₁, h₂, h₃⟩ := ih (insertDesc x acc) (insertDesc_sorted x h)
    refine ⟨h₁, ?_, ?_⟩
    · refine (h₂.trans ((insertDesc_perm x acc).append_right rest)).trans ?_
      rw [List.cons_append]
      exact List.perm_middle.symm
    · intro c
      rw [List.foldl_cons, h₃ c, insertDesc_filter x h c]
      by_cases hx : x.2 = c
      · simp [List.filter, hx, List.append_assoc]
      · simp [List.filter, hx]

theorem sortDesc_sorted {α : Type} (l : List (α × Nat)) :
    (sortDesc l).Pairwise (fun a b => b.2 ≤ a.2) :=
  (sortDesc_aux l [] List.Pairwise.nil).1

theorem sortDesc_perm {α : Type} (l : List (α × Nat)) : (sortDesc l).Perm l :=
  (sortDesc_aux l [] List.Pairwise.nil).2.1

theorem sortDesc_filter {α : Type} (l : List (α × Nat)) (c : Nat) :
    (sortDesc l).filter (fun z => decide (z.2 = c)) =
      l.filter (fun z => decide (z.2 = c)) := by
  have h := (sortDesc_aux l [] List.Pairwise.nil).2.2 c
  simpa using h

/- Lemmas about the cumulative budget filter. -/

theorem sumCounts_cons {α : Type} (p : α × Nat) (l : List (α × Nat)) :
    sumCounts (p :: l) = p.2 + sumCounts l := by
  simp [sumCounts]

theorem cumFilter_of_gt {α : Type} (B : Nat) (l : List (α × Nat)) :
    ∀ acc, B < acc → cumFilter B acc l = [] := by
  induction l with
  | nil =>
    intro acc _
    rfl
  | cons p rest ih =>
    intro acc h
    obtain ⟨k, c⟩ := p
    have hn : ¬ (acc + c ≤ B) := by omega
    simp only [cumFilter, if_neg hn]
    exact ih (acc + c) (by omega)

theorem cumFilter_spec {α : Type} (B : Nat) (l : List (α × Nat)) :
    ∀ acc, ∃ m, m ≤ l.length ∧
      cumFilter B acc l = (l.take m).map Prod.fst ∧
      (m = 0 ∨ acc + sumCounts (l.take m) ≤ B) ∧
      (m < l.length → B < acc + sumCounts (l.take (m + 1))) := by
  induction l with
  | nil =>
    intro acc
    exact ⟨0, Nat.le_refl 0, rfl, Or.inl rfl, fun h => absurd h (by simp)⟩
  | cons p rest ih =>
    intro acc
    obtain ⟨k, c⟩ := p
    by_cases hc : acc + c ≤ B
    · obtain ⟨m, hm, he, hsum, hmax⟩ := ih (acc + c)
      refine ⟨m + 1, by simpa using Nat.succ_le_succ hm, ?_, ?_, ?_⟩
      · simp only [cumFilter, if_pos hc, List.take_succ_cons, List.map_cons]
        rw [he]
      · right
        rw [List.take_succ_cons, sumCounts_cons]
        rcases hsum with h0 | hs
        · subst h0
          simpa [sumCounts] using hc
        · omega
      · intro hlt
        rw [List.take_succ_cons, sumCounts_cons]
        have := hmax (by simpa using Nat.lt_of_succ_lt_succ (Nat.succ_lt_succ hlt))
        omega
    · refine ⟨0, Nat.zero_le _, ?_, Or.inl rfl, ?_⟩
      · simp only [cumFilter, if_neg hc, List.take_zero, List.map_nil]
        exact cumFilter_of_gt B rest (acc + c) (by omega)
      · intro _
        rw [List.take_succ_cons, List.take_zero, sumCounts_cons]
        simp only [sumCounts, List.map_nil, List.sum_nil]
        omega

/-- C4: `top_user_ids` keeps exactly a prefix of the descending-sorted count
list — the maximal prefix whose cumulative count is `≤ 3,000,000` — and never
a user beyond it; with a budget below the single largest count the kept set
is empty; and an empty kept set flows through the rest of the script to an
empty (not failing) sampled output. -/
theorem claim_C4_budget (rows : List Interaction) :
    (∃ m, m ≤ (value_counts rows).length ∧
      top_user_ids rows = ((value_counts rows).take m).map Prod.fst ∧
      (m = 0 ∨ sumCounts ((value_counts rows).take m) ≤ BUDGET) ∧
      (m < (value_counts rows).length →
        BUDGET < sumCounts ((value_counts rows).take (m + 1)))) ∧
    (value_counts rows).Pairwise (fun a b => b.2 ≤ a.2) ∧
    (∀ (counts : List (Int × Nat)) (B : Nat) (p : Int × Nat),
      counts.head? = some p → B < p.2 → cumFilter B 0 counts = []) ∧
    (∀ (inter : List Interaction) (vb : List Int),
      top_user_ids (filtered_df inter vb) = [] →
      sampled_interactions inter vb = []) := by
  refine ⟨?_, ?_, ?_, ?_⟩
  · obtain ⟨m, hm, he, hsum, hmax⟩ := cumFilter_spec BUDGET (value_counts rows) 0
    refine ⟨m, hm, he, ?_, ?_⟩
    · rcases hsum with h0 | hs
      · exact Or.inl h0
      · right
        omega
    · intro hlt
      have := hmax hlt
      omega
  · exact sortDesc_sorted _
  · intro counts B p hhead hgt
    cases counts with
    | nil => simp at hhead
    | cons q rest =>
      have hqp : q = p := by simpa using hhead
      subst hqp
      obtain ⟨k, c⟩ := q
      have hn : ¬ (0 + c ≤ B) := by
        simp only at hgt
        omega
      simp only [cumFilter, if_neg hn]
      exact cumFilter_of_gt B rest (0 + c) (by simp only at hgt; omega)
  · intro inter vb h
    simp only [sampled_interactions]
    rw [h]
    have hnil : (filtered_df inter vb).filter
        (fun r => decide (r.user_id ∈ ([] : List Int))) = [] := by
      rw [List.filter_eq_nil_iff]
      intro r _
      simp
    rw [hnil]
    simp

/-- Witness for C4: a budget of 2 below a single count of 3 keeps nobody,
and an empty kept set yields an empty sampled output. -/
theorem claim_C4_witness :
    cumFilter 2 0 [((1 : Int), 3)] = [] ∧ sampled_interactions [] [] = [] := by
  constructor
  · exact (claim_C4_budget []).2.2.1 [((1 : Int), 3)] 2 ((1 : Int), 3) rfl
      (by decide)
  · exact (claim_C4_budget []).2.2.2 [] [] (by decide)

/- Key-structure lemmas for pass 1 of `process_reviews` (claim C3). -/

theorem bump_keys {α : Type} [DecidableEq α] (m : List (α × Nat)) (k : α) :
    (bump m k).map Prod.fst =
      if k ∈ m.map Prod.fst then m.map Prod.fst else m.map Prod.fst ++ [k] := by
  induction m with
  | nil => simp [bump]
  | cons p rest ih =>
    obtain ⟨k₁, v⟩ := p
    by_cases h : k₁ = k
    · subst h
      simp [bump]
    · have h₂ : ¬ k = k₁ := fun e => h e.symm
      simp only [bump, if_neg h, List.map_cons, List.mem_cons, h₂, false_or, ih]
      by_cases hm : k ∈ rest.map Prod.fst
      · simp [hm]
      · simp [hm]

theorem bump_keys_nodup {α : Type} [DecidableEq α] {m : List (α × Nat)} (k : α)
    (h : (m.map Prod.fst).Nodup) : ((bump m k).map Prod.fst).Nodup := by
  rw [bump_keys]
  by_cases hm : k ∈ m.map Prod.fst
  · simpa [hm] using h
  · simp only [if_neg hm]
    rw [List.nodup_append]
    refine ⟨h, List.nodup_singleton k, ?_⟩
    intro a ha hb
    rcases List.mem_singleton.mp hb with rfl
    exact hm ha

theorem userCounts_keys (input : List (Option ReviewRec)) :
    (userCounts input).map Prod.fst = firstSeenUsers input := by
  unfold userCounts firstSeenUsers
  suffices h : ∀ (l : List (Option ReviewRec)) (m : List (String × Nat)),
      (l.foldl (fun counts line =>
        match line with
        | none => counts
        | some record =>
          if record.user_id = "" then counts
          else bump counts record.user_id) m).map Prod.fst =
      l.foldl (fun seen line =>
        match line with
        | none => seen
        | some r =>
          if r.user_id = "" then seen
          else if r.user_id ∈ seen then seen else seen ++ [r.user_id])
        (m.map Prod.fst) by
    exact h input []
  intro l
  induction l with
  | nil =>
    intro m
    rfl
  | cons line rest ih =>
    intro m
    cases line with
    | none => exact ih m
    | some r =>
      by_cases hu : r.user_id = ""
      · simp only [List.foldl_cons, if_pos hu]
        exact ih m
      · simp only [List.foldl_cons, if_neg hu]
        rw [ih (bump m r.user_id), bump_keys]

theorem userCounts_keys_nodup (input : List (Option ReviewRec)) :
    ((userCounts input).map Prod.fst).Nodup := by
  unfold userCounts
  suffices h : ∀ (l : List (Option ReviewRec)) (m : List (String × Nat)),
      (m.map Prod.fst).Nodup →
      ((l.foldl (fun counts line =>
        match line with
        | none => counts
        | some record =>
          if record.user_id = "" then counts
          else bump counts record.user_id) m).map Prod.fst).Nodup by
    exact h input [] (by simp)
  intro l
  induction l with
  | nil =>
    intro m hm
    exact hm
  | cons line rest ih =>
    intro m hm
    cases line with
    | none => exact ih m hm
    | some r =>
      by_cases hu : r.user_id = ""
      · simp only [List.foldl_cons, if_pos hu]
        exact ih m hm
      · simp only [List.foldl_cons, if_neg hu]
        exact ih (bump m r.user_id) (bump_keys_nodup r.user_id hm)

/-- C3: the kept root set is the image of the first
`floor(0.05 × distinct-user-count)` entries of a list that is a permutation
of the pass-1 count map, sorted by descending count, with ties in first-seen
order (stable); consequently every kept user beats every dropped user on
count, or ties with them and was seen first.  The count map's keys are the
distinct users in order of first appearance, pairwise distinct, so the whole
selection is a deterministic function of the input stream. -/
theorem claim_C3_fraction_policy (input : List (Option ReviewRec)) :
    top_users_old input =
      ((sortDesc (userCounts input)).take
        (num_users_to_keep (userCounts input).length)).map Prod.fst ∧
    (top_users_old input).length =
      min (num_users_to_keep (userCounts input).length)
        (userCounts input).length ∧
    (sortDesc (userCounts input)).Perm (userCounts input) ∧
    (sortDesc (userCounts input)).Pairwise (fun a b => b.2 ≤ a.2) ∧
    (∀ c, (sortDesc (userCounts input)).filter (fun z => decide (z.2 = c)) =
      (userCounts input).filter (fun z => decide (z.2 = c))) ∧
    (userCounts input).map Prod.fst = firstSeenUsers input ∧
    ((userCounts input).map Prod.fst).Nodup ∧
    (∀ p q : String × Nat,
      p ∈ (sortDesc (userCounts input)).take
        (num_users_to_keep (userCounts input).length) →
      q ∈ (sortDesc (userCounts input)).drop
        (num_users_to_keep (userCounts input).length) →
      q.2 < p.2 ∨ (q.2 = p.2 ∧ [p, q].Sublist (userCounts input))) := by
  refine ⟨rfl, ?_, sortDesc_perm _, sortDesc_sorted _, sortDesc_filter _,
    userCounts_keys input, userCounts_keys_nodup input, ?_⟩
  · rw [top_users_old, List.length_map, List.length_take,
      (sortDesc_perm (userCounts input)).length_eq]
  · intro p q hp hq
    have hsorted := sortDesc_sorted (userCounts input)
    have hsplit := List.take_append_drop
      (num_users_to_keep (userCounts input).length)
      (sortDesc (userCounts input))
    have hcross : q.2 ≤ p.2 := by
      have h := hsplit ▸ hsorted
      exact (List.pairwise_append.mp h).2.2 p hp q hq
    rcases Nat.lt_or_ge q.2 p.2 with hlt | hge
    · exact Or.inl hlt
    · have hqc : q.2 = p.2 := Nat.le_antisymm hcross hge
      refine Or.inr ⟨hqc, ?_⟩
      have hsub : [p, q].Sublist (sortDesc (userCounts input)) := by
        have h1 : [p].Sublist ((sortDesc (userCounts input)).take
            (num_users_to_keep (userCounts input).length)) :=
          List.singleton_sublist.mpr hp
        have h2 : [q].Sublist ((sortDesc (userCounts input)).drop
            (num_users_to_keep (userCounts input).length)) :=
          List.singleton_sublist.mpr hq
        have := h1.append h2
        rw [hsplit] at this
        exact this
      have hfil : [p, q].filter (fun z => decide (z.2 = p.2)) = [p, q] := by
        simp [List.filter, hqc]
      have h3 := hsub.filter (fun z => decide (z.2 = p.2))
      rw [hfil, sortDesc_filter] at h3
      exact h3.trans (List.filter_sublist _)

/-- Witness for C3 on `revsTop`: the kept user `("u01", 2)` dominates the
dropped user `("u02", 1)` by count. -/
theorem claim_C3_witness :
    (1 : Nat) < 2 ∨ ((1 : Nat) = 2 ∧
      ([(("u01" : String), (2 : Nat)), ("u02", 1)]).Sublist
        (userCounts revsTop)) :=
  (claim_C3_fraction_policy revsTop).2.2.2.2.2.2.2 ("u01", 2) ("u02", 1)
    (by decide) (by decide)

/- Lemmas for the author merger (claim C5). -/

theorem lookupA_setA {α β : Type} [DecidableEq α] (m : List (α × β)) (k a : α)
    (v : β) :
    lookupA a (setA m k v) = if k = a then some v else lookupA a m := by
  induction m with
  | nil => simp [setA, lookupA]
  | cons p rest ih =>
    obtain ⟨k₁, v₁⟩ := p
    by_cases hk : k₁ = k
    · subst hk
      simp only [setA, if_pos rfl]
      by_cases ha : k₁ = a
      · simp [lookupA, ha]
      · simp [lookupA, ha]
    · simp only [setA, if_neg hk]
      by_cases ha : k₁ = a
      · subst ha
        have hka : ¬ k = k₁ := fun e => hk e.symm
        simp [lookupA, hka]
      · simp [lookupA, ha, ih]

theorem mem_setA {α β : Type} [DecidableEq α] {m : List (α × β)} {k : α}
    {v : β} {pr : α × β} (h : pr ∈ setA m k v) : pr = (k, v) ∨ pr ∈ m := by
  induction m with
  | nil => simpa [setA] using h
  | cons p rest ih =>
    obtain ⟨k₁, v₁⟩ := p
    by_cases hk : k₁ = k
    · subst hk
      rw [setA, if_pos rfl] at h
      rcases List.mem_cons.mp h with rfl | h₂
      · exact Or.inl rfl
      · exact Or.inr (List.mem_cons_of_mem _ h₂)
    · rw [setA, if_neg hk] at h
      rcases List.mem_cons.mp h with rfl | h₂
      · exact Or.inr (List.mem_cons_self _ _)
      · rcases ih h₂ with h₃ | h₃
        · exact Or.inl h₃
        · exact Or.inr (List.mem_cons_of_mem _ h₃)

theorem splitSemi_no_semi (s : List Char) (h : ';' ∉ s) : splitSemi s = [s] := by
  induction s with
  | nil => rfl
  | cons c rest ih =>
    have hc : ¬ (c = ';') := fun e => h (by rw [e]; exact List.mem_cons_self _ _)
    have hr : ';' ∉ rest := fun hm => h (List.mem_cons_of_mem c hm)
    simp [splitSemi, hc, ih hr]

theorem splitSemi_append (x t : List Char) (h : ';' ∉ x) :
    splitSemi (x ++ ';' :: t) = x :: splitSemi t := by
  induction x with
  | nil => simp [splitSemi]
  | cons c rest ih =>
    have hc : ¬ (c = ';') := fun e => h (by rw [e]; exact List.mem_cons_self _ _)
    have hr : ';' ∉ rest := fun hm => h (List.mem_cons_of_mem c hm)
    simp [List.cons_append, splitSemi, hc, ih hr]

theorem splitSemi_joinSemi (ids : List (List Char)) (hne : ids ≠ [])
    (h : ∀ x ∈ ids, ';' ∉ x) : splitSemi (joinSemi ids) = ids := by
  induction ids with
  | nil => exact absurd rfl hne
  | cons g gs ih =>
    cases gs with
    | nil => exact splitSemi_no_semi g (h g (List.mem_cons_self _ _))
    | cons g₂ gs₂ =>
      rw [joinSemi, splitSemi_append _ _ (h g (List.mem_cons_self _ _)),
        ih (by simp) (fun x hx => h x (List.mem_cons_of_mem _ hx))]

theorem joinSemi_concat (ids : List (List Char)) (b : List Char)
    (h : ids ≠ []) : joinSemi (ids ++ [b]) = joinSemi ids ++ ';' :: b := by
  induction ids with
  | nil => exact absurd rfl h
  | cons g gs ih =>
    cases gs with
    | nil => simp [joinSemi]
    | cons g₂ gs₂ =>
      rw [List.cons_append]
      have h3 : joinSemi (g :: ((g₂ :: gs₂) ++ [b])) =
          g ++ ';' :: joinSemi ((g₂ :: gs₂) ++ [b]) := rfl
      rw [h3, ih (by simp)]
      simp [joinSemi, List.append_assoc]

theorem mem_joinSemi {x : List Char} {ids : List (List Char)} (h : x ∈ ids) :
    x <:+: joinSemi ids := by
  induction ids with
  | nil => simp at h
  | cons g gs ih =>
    cases gs with
    | nil =>
      rcases List.mem_cons.mp h with rfl | h₂
      · exact ⟨[], [], by simp [joinSemi]⟩
      · simp at h₂
    | cons g₂ gs₂ =>
      rcases List.mem_cons.mp h with rfl | h₂
      · exact ⟨[], ';' :: joinSemi (g₂ :: gs₂), by simp [joinSemi]⟩
      · obtain ⟨s, t, hst⟩ := ih h₂
        refine ⟨g ++ ';' :: s, t, ?_⟩
        rw [joinSemi, ← hst]
        simp [List.append_assoc]

theorem process_authors_loop_books (input : List (Option AuthorRec))
    (hids : ∀ r ∈ input.filterMap id, ';' ∉ r.book_id.data) :
    ∀ (seen : List (String × AuthorRow)) (count : Nat),
      (∀ pr ∈ seen, ∃ ids : List (List Char), pr.2.books = joinSemi ids ∧
        ids ≠ [] ∧ ids.Nodup ∧ ∀ x ∈ ids, ';' ∉ x) →
      ∀ pr ∈ process_authors_loop input seen count,
        ∃ ids : List (List Char), pr.2.books = joinSemi ids ∧
          ids ≠ [] ∧ ids.Nodup ∧ ∀ x ∈ ids, ';' ∉ x := by
  induction input with
  | nil =>
    intro seen count h pr hpr
    simp only [process_authors_loop] at hpr
    exact h pr hpr
  | cons line rest ih =>
    intro seen count h pr hpr
    have hrest : ∀ r ∈ rest.filterMap id, ';' ∉ r.book_id.data := by
      intro r hr
      exact hids r (by simp only [List.filterMap_cons] at *; cases line <;>
        simp_all [List.mem_cons])
    cases line with
    | none =>
      simp only [process_authors_loop] at hpr
      exact ih hrest seen count h pr hpr
    | some record =>
      have hrec : ';' ∉ record.book_id.data := by
        refine hids record ?_
        simp [List.filterMap_cons]
      simp only [process_authors_loop] at hpr
      by_cases hid : record.author_id = ""
      · rw [if_pos hid] at hpr
        exact ih hrest seen count h pr hpr
      · rw [if_neg hid] at hpr
        split at hpr
        · rename_i hl
          have h1 : ∀ q ∈ seen ++ [(record.author_id,
              { author_id := record.author_id, name := record.name,
                role := record.role,
                books := record.book_id.data : AuthorRow })],
              ∃ ids : List (List Char), q.2.books = joinSemi ids ∧
                ids ≠ [] ∧ ids.Nodup ∧ ∀ x ∈ ids, ';' ∉ x := by
            intro q hq
            rcases List.mem_append.mp hq with hq₁ | hq₁
            · exact h q hq₁
            · rcases List.mem_singleton.mp hq₁ with rfl
              exact ⟨[record.book_id.data], rfl, by simp,
                List.nodup_singleton _, by simpa using hrec⟩
          by_cases hm : MAX_AUTHORS ≤ count + 1
          · rw [if_pos hm] at hpr
            exact h1 pr hpr
          · rw [if_neg hm] at hpr
            exact ih hrest _ _ h1 pr hpr
        · rename_i row₁ hl
          by_cases hcond : record.book_id ≠ "" ∧
              ¬ (record.book_id.data <:+: row₁.books)
          · rw [if_pos hcond] at hpr
            obtain ⟨ids, hb, hne, hnd, hfree⟩ := h _ (lookupA_mem hl)
            have h1 : ∀ q ∈ setA seen record.author_id
                { row₁ with books := row₁.books ++ ';' :: record.book_id.data },
                ∃ ids : List (List Char), q.2.books = joinSemi ids ∧
                  ids ≠ [] ∧ ids.Nodup ∧ ∀ x ∈ ids, ';' ∉ x := by
              intro q hq
              rcases mem_setA hq with rfl | hq₁
              · refine ⟨ids ++ [record.book_id.data], ?_, by simp, ?_, ?_⟩
                · simp only
                  rw [hb, joinSemi_concat ids _ hne]
                · rw [List.nodup_append]
                  refine ⟨hnd, List.nodup_singleton _, ?_⟩
                  intro x hx hx₂
                  rcases List.mem_singleton.mp hx₂ with rfl
                  exact hcond.2 (hb ▸ mem_joinSemi hx)
                · intro x hx
                  rcases List.mem_append.mp hx with hx₁ | hx₁
                  · exact hfree x hx₁
                  · rcases List.mem_singleton.mp hx₁ with rfl
                    exact hrec
              · exact h q hq₁
            exact ih hrest _ _ h1 pr hpr
          · rw [if_neg hcond] at hpr
            exact ih hrest seen count h pr hpr

theorem process_authors_loop_scalars (input : List (Option AuthorRec)) :
    ∀ (seen : List (String × AuthorRow)) (count : Nat) (a : String)
      (row : AuthorRow), a ≠ "" →
      lookupA a (process_authors_loop input seen count) = some row →
      (∃ row₀, lookupA a seen = some row₀ ∧ row.author_id = row₀.author_id ∧
        row.name = row₀.name ∧ row.role = row₀.role) ∨
      (lookupA a seen = none ∧ ∃ r, firstRecWith a input = some r ∧
        row.author_id = a ∧ row.name = r.name ∧ row.role = r.role) := by
  induction input with
  | nil =>
    intro seen count a row ha h
    simp only [process_authors_loop] at h
    exact Or.inl ⟨row, h, rfl, rfl, rfl⟩
  | cons line rest ih =>
    intro seen count a row ha h
    cases line with
    | none =>
      simp only [process_authors_loop] at h
      rcases ih seen count a row ha h with h₁ | ⟨h₂, r, hr, he⟩
      · exact Or.inl h₁
      · exact Or.inr ⟨h₂, r, hr, he⟩
    | some record =>
      simp only [process_authors_loop] at h
      by_cases hid : record.author_id = ""
      · rw [if_pos hid] at h
        have hne : ¬ (record.author_id = a) := fun e => ha (e.symm.trans hid)
        rcases ih seen count a row ha h with h₁ | ⟨h₂, r, hr, he⟩
        · exact Or.inl h₁
        · refine Or.inr ⟨h₂, r, ?_, he⟩
          simp only [firstRecWith]
          rw [if_neg hne]
          exact hr
      · rw [if_neg hid] at h
        split at h
        · rename_i hl
          by_cases hm : MAX_AUTHORS ≤ count + 1
          · rw [if_pos hm] at h
            cases hs : lookupA a seen with
            | some v =>
              have h2 := lookupA_append_left
                [(record.author_id,
                  { author_id := record.author_id, name := record.name,
                    role := record.role,
                    books := record.book_id.data : AuthorRow })] hs
              rw [h2] at h
              have hv := Option.some.inj h
              exact Or.inl ⟨v, rfl, by rw [hv], by rw [hv], by rw [hv]⟩
            | none =>
              have h2 := lookupA_append_right
                [(record.author_id,
                  { author_id := record.author_id, name := record.name,
                    role := record.role,
                    books := record.book_id.data : AuthorRow })] hs
              rw [h2] at h
              simp only [lookupA] at h
              by_cases haa : record.author_id = a
              · rw [if_pos haa] at h
                have hv := Option.some.inj h
                refine Or.inr ⟨rfl, record, ?_, ?_, ?_, ?_⟩
                · simp only [firstRecWith]
                  rw [if_pos haa]
                · rw [← hv]
                  exact haa
                · rw [← hv]
                · rw [← hv]
              · rw [if_neg haa] at h
                exact absurd h (by simp)
          · rw [if_neg hm] at h
            rcases ih _ (count + 1) a row ha h with
              ⟨row₀, hr₀, hf₁, hf₂, hf₃⟩ | ⟨h₂, r, hr, he⟩
            · cases hs : lookupA a seen with
              | some v =>
                have h2 := lookupA_append_left
                  [(record.author_id,
                    { author_id := record.author_id, name := record.name,
                      role := record.role,
                      books := record.book_id.data : AuthorRow })] hs
                rw [h2] at hr₀
                have hv := Option.some.inj hr₀
                exact Or.inl ⟨v, rfl, by rw [hv]; exact hf₁,
                  by rw [hv]; exact hf₂, by rw [hv]; exact hf₃⟩
              | none =>
                have h2 := lookupA_append_right
                  [(record.author_id,
                    { author_id := record.author_id, name := record.name,
                      role := record.role,
                      books := record.book_id.data : AuthorRow })] hs
                rw [h2] at hr₀
                simp only [lookupA] at hr₀
                by_cases haa : record.author_id = a
                · rw [if_pos haa] at hr₀
                  have hv := Option.some.inj hr₀
                  refine Or.inr ⟨rfl, record, ?_, ?_, ?_, ?_⟩
                  · simp only [firstRecWith]
                    rw [if_pos haa]
                  · rw [hf₁, ← hv]
                    exact haa
                  · rw [hf₂, ← hv]
                  · rw [hf₃, ← hv]
                · rw [if_neg haa] at hr₀
                  exact absurd hr₀ (by simp)
            · have hs : lookupA a seen = none := by
                cases hq : lookupA a seen with
                | none => rfl
                | some v =>
                  have h2 := lookupA_append_left
                    [(record.author_id,
                      { author_id := record.author_id, name := record.name,
                        role := record.role,
                        books := record.book_id.data : AuthorRow })] hq
                  rw [h2] at h₂
                  exact absurd h₂ (by simp)
              have haa : ¬ (record.author_id = a) := by
                intro e
                have h2 := lookupA_append_right
                  [(record.author_id,
                    { author_id := record.author_id, name := record.name,
                      role := record.role,
                      books := record.book_id.data : AuthorRow })] hs
                rw [h2] at h₂
                simp only [lookupA, if_pos e] at h₂
                exact Option.noConfusion h₂
              refine Or.inr ⟨hs, r, ?_, he⟩
              simp only [firstRecWith]
              rw [if_neg haa]
              exact hr
        · rename_i row₁ hl
          by_cases hcond : record.book_id ≠ "" ∧
              ¬ (record.book_id.data <:+: row₁.books)
          · rw [if_pos hcond] at h
            rcases ih _ count a row ha h with
              ⟨row₀, hr₀, hf₁, hf₂, hf₃⟩ | ⟨h₂, r, hr, he⟩
            · rw [lookupA_setA] at hr₀
              by_cases haa : record.author_id = a
              · rw [if_pos haa] at hr₀
                have hv := Option.some.inj hr₀
                refine Or.inl ⟨row₁, ?_, ?_, ?_, ?_⟩
                · rw [← haa]
                  exact hl
                · rw [hf₁, ← hv]
                · rw [hf₂, ← hv]
                · rw [hf₃, ← hv]
              · rw [if_neg haa] at hr₀
                exact Or.inl ⟨row₀, hr₀, hf₁, hf₂, hf₃⟩
            · rw [lookupA_setA] at h₂
              by_cases haa : record.author_id = a
              · rw [if_pos haa] at h₂
                exact absurd h₂ (by simp)
              · rw [if_neg haa] at h₂
                refine Or.inr ⟨h₂, r, ?_, he⟩
                simp only [firstRecWith]
                rw [if_neg haa]
                exact hr
          · rw [if_neg hcond] at h
            rcases ih seen count a row ha h with h₁ | ⟨h₂, r, hr, he⟩
            · exact Or.inl h₁
            · have haa : ¬ (record.author_id = a) := by
                intro e
                rw [e, h₂] at hl
                exact Option.noConfusion hl
              refine Or.inr ⟨h₂, r, ?_, he⟩
              simp only [firstRecWith]
              rw [if_neg haa]
              exact hr

/-- Counterexample to C5 as stated: Python's `book_id not in existing["books"]`
is a *substring* test on the accumulated string, not membership in the set of
accumulated book values.  Merging the same two records (books `"12"` and
`"1"`) in the two possible orders yields different final book-value sets —
`{"12"}` versus `{"1", "12"}` — so the merge is not a commutative set union,
and the value `"1"`, although absent from the accumulated set `{"12"}`, is
not added. -/
theorem claim_C5_cex :
    (process_authors [authRec12, authRec1]).map
      (fun row => splitSemi row.books) = [[['1', '2']]] ∧
    (process_authors [authRec1, authRec12]).map
      (fun row => splitSemi row.books) = [[['1'], ['1', '2']]] := by
  constructor
  · decide
  · decide

/-- C5 (amended): author merging fixes the scalar fields (`name`, `role`)
from the first record seen for an `author_id`; a later record appends its
`book_id` to the accumulated `books` string iff the id is non-empty and not a
*substring* (Python `in` on `str`) of that string — in particular a book
value already present is never appended again, so for `";"`-free book ids the
final `books` field splits into pairwise-distinct values; but because the
test is a substring test, merging in different orders may yield different
final book-value sets (no commutative set-union semantics). -/
theorem claim_C5_author_merge (input : List (Option AuthorRec))
    (hids : ∀ r ∈ input.filterMap id, ';' ∉ r.book_id.data) :
    (∀ row ∈ process_authors input, (splitSemi row.books).Nodup) ∧
    (∀ (a : String) (row : AuthorRow), a ≠ "" →
      lookupA a (process_authors_loop input [] 0) = some row →
      ∃ r, firstRecWith a input = some r ∧ row.author_id = a ∧
        row.name = r.name ∧ row.role = r.role) := by
  constructor
  · intro row hrow
    obtain ⟨pr, hpr, he⟩ := List.mem_map.mp hrow
    obtain ⟨ids, hbooks, hne, hnd, hfree⟩ :=
      process_authors_loop_books input hids [] 0 (by simp) pr hpr
    rw [← he, hbooks, splitSemi_joinSemi ids hne hfree]
    exact hnd
  · intro a row ha h
    rcases process_authors_loop_scalars input [] 0 a row ha h with
      ⟨row₀, h₀, _⟩ | ⟨_, r, hr, he₁, he₂, he₃⟩
    · simp [lookupA] at h₀
    · exact ⟨r, hr, he₁, he₂, he₃⟩

/-- Witness for C5 (amended) on the two-record input `[authRec12, authRec1]`:
the merged row has pairwise-distinct book values and its scalars come from
the first record. -/
theorem claim_C5_witness :
    (∀ row ∈ process_authors [authRec12, authRec1],
      (splitSemi row.books).Nodup) ∧
    (∃ r, firstRecWith "a1" [authRec12, authRec1] = some r ∧
      ({ author_id := "a1", name := "N", role := "author",
         books := ['1', '2'] } : AuthorRow).author_id = "a1" ∧
      ({ author_id := "a1", name := "N", role := "author",
         books := ['1', '2'] } : AuthorRow).name = r.name ∧
      ({ author_id := "a1", name := "N", role := "author",
         books := ['1', '2'] } : AuthorRow).role = r.role) := by
  have h := claim_C5_author_merge [authRec12, authRec1] (by decide)
  exact ⟨h.1, h.2 "a1"
    { author_id := "a1", name := "N", role := "author", books := ['1', '2'] }
    (by decide) (by decide)⟩

/- Lemmas for the failure semantics of the cascade (claim C6). -/

theorem process_books_empty_kept (m : MapState)
    (g : List (String × List Char)) (lines : List (Option BookRec)) :
    process_books [] m g (some lines) = some [] := by
  simp only [process_books, Option.some.injEq]
  suffices h : ∀ acc : List BookRow, lines.foldl
      (fun rows line =>
        match line with
        | none => rows
        | some record =>
          if record.book_id ∈ ([] : List String) then
            match lookupA record.book_id m.map with
            | none => rows
            | some new_book_id =>
              rows ++ [{ book_id := new_book_id
                         title := record.title
                         description := safe_truncate record.description 1500
                         genre := (lookupA record.book_id g).getD [] }]
          else rows) acc = acc by
    exact h []
  induction lines with
  | nil =>
    intro acc
    rfl
  | cons line rest ih =>
    intro acc
    cases line with
    | none => exact ih acc
    | some record =>
      rw [List.foldl_cons]
      have : (record.book_id ∈ ([] : List String)) = False := by simp
      simp only [List.not_mem_nil, if_false, this]
      exact ih acc

theorem process_genres_empty_kept (m : MapState)
    (lines : List (Option GenreRec)) :
    process_genres [] m (some lines) = some [] := by
  simp only [process_genres, Option.some.injEq]
  suffices h : ∀ acc : List GenreRow, lines.foldl
      (fun rows line =>
        match line with
        | none => rows
        | some record =>
          if record.book_id ∈ ([] : List String) then
            match lookupA record.book_id m.map with
            | none => rows
            | some new_book_id => rows ++ [⟨new_book_id, record.genre⟩]
          else rows) acc = acc by
    exact h []
  induction lines with
  | nil =>
    intro acc
    rfl
  | cons line rest ih =>
    intro acc
    cases line with
    | none => exact ih acc
    | some record =>
      rw [List.foldl_cons]
      have : (record.book_id ∈ ([] : List String)) = False := by simp
      simp only [List.not_mem_nil, if_false, this]
      exact ih acc

/-- Counterexample to C6 as stated: on a world whose reviews file is missing
but whose book-metadata file is present, `extract_files.main` does NOT abort
— the book stage still runs and writes a (header-only, empty) `books.csv` —
so "no downstream stage runs" is false for this pipeline. -/
theorem claim_C6_cex :
    (extract_main worldNoReviews).books_out = some [] ∧
    (extract_main worldNoReviews).reviews_out = none := by
  constructor
  · decide
  · decide

/-- C6 (amended): in `extract_files.py` a missing reviews file is reported
but *non-fatal*: no `reviews.csv` is written, yet every downstream stage
still runs with empty kept-ID sets and produces an empty (header-only)
output without failing.  Only in `sample.py` does a missing root
`reviews.csv` abort the run with a single error naming the file and no
downstream stage.  A missing dependent genres file is non-fatal in
`extract_files.py`: it yields an empty genre dict, writes no `genres.csv`,
and the book stage still runs. -/
theorem claim_C6_failure_semantics (w : ExtractWorld) (w2 : SampleWorld) :
    (w.reviews_src = none →
      (extract_main w).reviews_out = none ∧
      (∀ ls, w.books_src = some ls → (extract_main w).books_out = some []) ∧
      (∀ gs, w.genres_src = some gs → (extract_main w).genres_out = some [])) ∧
    (w2.reviews_csv = none →
      sample_main w2 =
        { error := some "ERROR: reviews.csv not found."
          interactions_out := none, books_out := none, authors_out := none
          users_out := none, reviews_out := none }) ∧
    (w.genres_src = none →
      load_genres w.genres_src = [] ∧
      (extract_main w).genres_out = none ∧
      (∀ ls, w.books_src = some ls →
        ∃ rows, (extract_main w).books_out = some rows)) := by
  refine ⟨?_, ?_, ?_⟩
  · intro hr
    obtain ⟨rs, gs, bs⟩ := w
    simp only at hr
    subst hr
    refine ⟨rfl, ?_, ?_⟩
    · intro ls hls
      simp only at hls
      subst hls
      simp only [extract_main, reviews_stage, initPass2, List.filter_nil]
      exact process_books_empty_kept _ _ _
    · intro gls hls
      simp only at hls
      subst hls
      simp only [extract_main, reviews_stage, initPass2, List.filter_nil]
      exact process_genres_empty_kept _ _
  · intro hr
    obtain ⟨rc, ic, bc, ac, uc⟩ := w2
    simp only at hr
    subst hr
    rfl
  · intro hg
    obtain ⟨rs, gs, bs⟩ := w
    simp only at hg
    subst hg
    refine ⟨rfl, rfl, ?_⟩
    intro ls hls
    simp only at hls
    subst hls
    exact ⟨_, rfl⟩

/-- Witness for C6 (amended) at `worldNoReviews` (reviews and genres files
missing, books file present) and a sample world with no `reviews.csv`. -/
theorem claim_C6_witness :
    (extract_main worldNoReviews).reviews_out = none ∧
    (extract_main worldNoReviews).books_out = some [] ∧
    (extract_main worldNoReviews).genres_out = none ∧
    sample_main ⟨none, none, none, none, none⟩ =
      { error := some "ERROR: reviews.csv not found."
        interactions_out := none, books_out := none, authors_out := none
        users_out := none, reviews_out := none } := by
  have h := claim_C6_failure_semantics worldNoReviews ⟨none, none, none, none, none⟩
  exact ⟨(h.1 rfl).1, (h.1 rfl).2.1 _ rfl, (h.2.2 rfl).2.1, h.2.1 rfl⟩

/- Lemmas for referential closure (claim C1). -/

theorem mem_insertS {α : Type} [DecidableEq α] {s : List α} {x b : α}
    (h : b ∈ insertS s x) : b = x ∨ b ∈ s := by
  unfold insertS at h
  by_cases hx : x ∈ s
  · rw [if_pos hx] at h
    exact Or.inr h
  · rw [if_neg hx] at h
    rcases List.mem_append.mp h with h₁ | h₁
    · exact Or.inr h₁
    · exact Or.inl (List.mem_singleton.mp h₁)

theorem pass2Step_inv (top : List String) (st : Pass2State)
    (line : Option ReviewRec)
    (h₁ : ∀ b ∈ st.kept_books_old,
      ∃ v, lookupA b st.book_id_map.map = some v)
    (h₂ : ∀ row ∈ st.rows, ∃ ob ∈ st.kept_books_old,
      lookupA ob st.book_id_map.map = some row.book_id)
    (h₃ : ∀ row ∈ st.rows, ∃ ou ∈ st.kept_users_old,
      lookupA ou st.user_id_map.map = some row.user_id) :
    (∀ b ∈ (pass2Step top st line).kept_books_old,
      ∃ v, lookupA b (pass2Step top st line).book_id_map.map = some v) ∧
    (∀ row ∈ (pass2Step top st line).rows,
      ∃ ob ∈ (pass2Step top st line).kept_books_old,
        lookupA ob (pass2Step top st line).book_id_map.map =
          some row.book_id) ∧
    (∀ row ∈ (pass2Step top st line).rows,
      ∃ ou ∈ (pass2Step top st line).kept_users_old,
        lookupA ou (pass2Step top st line).user_id_map.map =
          some row.user_id) := by
  cases line with
  | none => exact ⟨h₁, h₂, h₃⟩
  | some record =>
    by_cases hu : record.user_id ∈ top
    · simp only [pass2Step, if_pos hu]
      obtain ⟨tb, htb⟩ := get_mapped_grows record.book_id st.book_id_map
      obtain ⟨tu, htu⟩ := get_mapped_grows record.user_id st.user_id_map
      refine ⟨?_, ?_, ?_⟩
      · intro b hb
        rcases mem_insertS hb with rfl | hb₂
        · exact ⟨_, get_mapped_lookup _ _⟩
        · obtain ⟨v, hv⟩ := h₁ b hb₂
          rw [htb]
          exact ⟨v, lookupA_append_left _ hv⟩
      · intro row hrow
        rcases List.mem_append.mp hrow with hrow₁ | hrow₁
        · obtain ⟨ob, hob, hv⟩ := h₂ row hrow₁
          rw [htb]
          exact ⟨ob, insertS_mem_mono _ hob, lookupA_append_left _ hv⟩
        · rcases List.mem_singleton.mp hrow₁ with rfl
          exact ⟨record.book_id, insertS_mem_self _ _, get_mapped_lookup _ _⟩
      · intro row hrow
        rcases List.mem_append.mp hrow with hrow₁ | hrow₁
        · obtain ⟨ou, hou, hv⟩ := h₃ row hrow₁
          rw [htu]
          exact ⟨ou, insertS_mem_mono _ hou, lookupA_append_left _ hv⟩
        · rcases List.mem_singleton.mp hrow₁ with rfl
          exact ⟨record.user_id, insertS_mem_self _ _, get_mapped_lookup _ _⟩
    · simp only [pass2Step, if_neg hu]
      exact ⟨h₁, h₂, h₃⟩

theorem pass2_fold_inv (top : List String) (input : List (Option ReviewRec)) :
    ∀ st : Pass2State,
      (∀ b ∈ st.kept_books_old,
        ∃ v, lookupA b st.book_id_map.map = some v) →
      (∀ row ∈ st.rows, ∃ ob ∈ st.kept_books_old,
        lookupA ob st.book_id_map.map = some row.book_id) →
      (∀ row ∈ st.rows, ∃ ou ∈ st.kept_users_old,
        lookupA ou st.user_id_map.map = some row.user_id) →
      (∀ b ∈ (input.foldl (pass2Step top) st).kept_books_old,
        ∃ v, lookupA b (input.foldl (pass2Step top) st).book_id_map.map =
          some v) ∧
      (∀ row ∈ (input.foldl (pass2Step top) st).rows,
        ∃ ob ∈ (input.foldl (pass2Step top) st).kept_books_old,
          lookupA ob (input.foldl (pass2Step top) st).book_id_map.map =
            some row.book_id) ∧
      (∀ row ∈ (input.foldl (pass2Step top) st).rows,
        ∃ ou ∈ (input.foldl (pass2Step top) st).kept_users_old,
          lookupA ou (input.foldl (pass2Step top) st).user_id_map.map =
            some row.user_id) := by
  induction input with
  | nil =>
    intro st h₁ h₂ h₃
    exact ⟨h₁, h₂, h₃⟩
  | cons line rest ih =>
    intro st h₁ h₂ h₃
    obtain ⟨g₁, g₂, g₃⟩ := pass2Step_inv top st line h₁ h₂ h₃
    exact ih (pass2Step top st line) g₁ g₂ g₃

theorem process_books_sound (kept : List String) (m : MapState)
    (g : List (String × List Char)) (lines : List (Option BookRec)) :
    ∀ brow ∈ (process_books kept m g (some lines)).getD [],
      ∃ ob ∈ kept, lookupA ob m.map = some brow.book_id := by
  simp only [process_books, Option.getD_some]
  suffices h : ∀ acc : List BookRow,
      (∀ brow ∈ acc, ∃ ob ∈ kept, lookupA ob m.map = some brow.book_id) →
      ∀ brow ∈ lines.foldl (fun rows line =>
        match line with
        | none => rows
        | some record =>
          if record.book_id ∈ kept then
            match lookupA record.book_id m.map with
            | none => rows
            | some new_book_id =>
              rows ++ [{ book_id := new_book_id
                         title := record.title
                         description := safe_truncate record.description 1500
                         genre := (lookupA record.book_id g).getD [] }]
          else rows) acc,
        ∃ ob ∈ kept, lookupA ob m.map = some brow.book_id by
    exact h [] (by simp)
  induction lines with
  | nil =>
    intro acc hacc brow hb
    exact hacc brow hb
  | cons line rest ih =>
    intro acc hacc brow hb
    rw [List.foldl_cons] at hb
    cases line with
    | none => exact ih acc hacc brow hb
    | some record =>
      by_cases hk : record.book_id ∈ kept
      · simp only [if_pos hk] at hb
        cases hl : lookupA record.book_id m.map with
        | none =>
          rw [hl] at hb
          exact ih acc hacc brow hb
        | some v =>
          rw [hl] at hb
          refine ih _ ?_ brow hb
          intro br hbr
          rcases List.mem_append.mp hbr with hbr₁ | hbr₁
          · exact hacc br hbr₁
          · rcases List.mem_singleton.mp hbr₁ with rfl
            exact ⟨record.book_id, hk, hl⟩
      · simp only [if_neg hk] at hb
        exact ih acc hacc brow hb

theorem books_fold_mono (kept : List String) (m : MapState)
    (g : List (String × List Char)) (lines : List (Option BookRec)) :
    ∀ (acc : List BookRow) (brow : BookRow), brow ∈ acc →
      brow ∈ lines.foldl (fun rows line =>
        match line with
        | none => rows
        | some record =>
          if record.book_id ∈ kept then
            match lookupA record.book_id m.map with
            | none => rows
            | some new_book_id =>
              rows ++ [{ book_id := new_book_id
                         title := record.title
                         description := safe_truncate record.description 1500
                         genre := (lookupA record.book_id g).getD [] }]
          else rows) acc := by
  induction lines with
  | nil =>
    intro acc brow hb
    exact hb
  | cons line rest ih =>
    intro acc brow hb
    rw [List.foldl_cons]
    cases line with
    | none => exact ih acc brow hb
    | some record =>
      by_cases hk : record.book_id ∈ kept
      · simp only [if_pos hk]
        cases hl : lookupA record.book_id m.map with
        | none => exact ih acc brow hb
        | some v => exact ih _ brow (List.mem_append_left _ hb)
      · simp only [if_neg hk]
        exact ih acc brow hb

theorem process_books_complete (kept : List String) (m : MapState)
    (g : List (String × List Char)) (lines : List (Option BookRec))
    (ob : String) (v : Nat) (hk : ob ∈ kept)
    (hv : lookupA ob m.map = some v)
    (hsrc : ∃ br ∈ lines.filterMap id, br.book_id = ob) :
    ∃ brow ∈ (process_books kept m g (some lines)).getD [],
      brow.book_id = v := by
  simp only [process_books, Option.getD_some]
  suffices h : ∀ acc : List BookRow,
      ∃ brow ∈ lines.foldl (fun rows line =>
        match line with
        | none => rows
        | some record =>
          if record.book_id ∈ kept then
            match lookupA record.book_id m.map with
            | none => rows
            | some new_book_id =>
              rows ++ [{ book_id := new_book_id
                         title := record.title
                         description := safe_truncate record.description 1500
                         genre := (lookupA record.book_id g).getD [] }]
          else rows) acc,
        brow.book_id = v by
    exact h []
  induction lines with
  | nil =>
    simp at hsrc
  | cons line rest ih =>
    intro acc
    rw [List.foldl_cons]
    cases line with
    | none =>
      simp only [List.filterMap_cons_none, id] at hsrc
      exact ih hsrc acc
    | some br₁ =>
      by_cases hbr : br₁.book_id = ob
      · simp only [hbr, if_pos hk, hv]
        exact ⟨_, books_fold_mono kept m g rest _ _
          (List.mem_append_right _ (List.mem_singleton_self _)), rfl⟩
      · have hsrc₂ : ∃ br ∈ rest.filterMap id, br.book_id = ob := by
          rcases hsrc with ⟨br, hbm, hbe⟩
          rcases (by simpa using hbm :
              br = br₁ ∨ br ∈ rest.filterMap id) with rfl | hbm₂
          · exact absurd hbe hbr
          · exact ⟨br, hbm₂, hbe⟩
        by_cases hk₁ : br₁.book_id ∈ kept
        · simp only [if_pos hk₁]
          cases hl : lookupA br₁.book_id m.map with
          | none => exact ih hsrc₂ acc
          | some w => exact ih hsrc₂ _
        · simp only [if_neg hk₁]
          exact ih hsrc₂ acc

/-- Counterexample to C1 as stated: in the world `worldNoB1` the reviews
output contains rows whose `book_id` (the remapped id of `"b1"`) matches no
row of the books output, because `"b1"` never occurs in the book-metadata
source — `process_reviews` admits a `book_id` with no membership pre-check
and the books stage can only re-encounter ids that its own source contains,
so a foreign key in `reviews.csv` dangles. -/
theorem claim_C1_cex :
    ∃ row ∈ (extract_main worldNoB1).reviews_out.getD [],
      ∀ brow ∈ (extract_main worldNoB1).books_out.getD [],
        brow.book_id ≠ row.book_id := by
  decide

/-- C1 (amended): the intersection of `kept_books_old` with the book-id-map
keys (line 318 of `extract_files.py`) is a no-op, every books-output row
carries the remapped id of some kept book, every reviews-output row's
`user_id` is the remapped id of some kept user; and the review `book_id`
foreign keys resolve into the books output *provided* every kept book id
occurs in the book-metadata source — without that completeness assumption
they may dangle (see the counterexample). -/
theorem claim_C1_referential (input : List (Option ReviewRec))
    (bookSrc : List (Option BookRec)) (genres : List (String × List Char)) :
    ((process_reviews input).kept_books_old.filter
      (fun b => (lookupA b (process_reviews input).book_id_map.map).isSome) =
      (process_reviews input).kept_books_old) ∧
    (∀ brow ∈ (process_books (process_reviews input).kept_books_old
        (process_reviews input).book_id_map genres (some bookSrc)).getD [],
      ∃ ob ∈ (process_reviews input).kept_books_old,
        lookupA ob (process_reviews input).book_id_map.map =
          some brow.book_id) ∧
    (∀ row ∈ (process_reviews input).rows,
      ∃ ou ∈ (process_reviews input).kept_users_old,
        lookupA ou (process_reviews input).user_id_map.map =
          some row.user_id) ∧
    ((∀ ob ∈ (process_reviews input).kept_books_old,
        ∃ br ∈ bookSrc.filterMap id, br.book_id = ob) →
      ∀ row ∈ (process_reviews input).rows,
        ∃ brow ∈ (process_books (process_reviews input).kept_books_old
            (process_reviews input).book_id_map genres (some bookSrc)).getD [],
          brow.book_id = row.book_id) := by
  obtain ⟨h₁, h₂, h₃⟩ := pass2_fold_inv (top_users_old input) input initPass2
    (by intro b hb; exact absurd hb (List.not_mem_nil b))
    (by intro row hrow; exact absurd hrow (List.not_mem_nil row))
    (by intro row hrow; exact absurd hrow (List.not_mem_nil row))
  refine ⟨?_, process_books_sound _ _ _ _, h₃, ?_⟩
  · rw [List.filter_eq_self]
    intro b hb
    obtain ⟨v, hv⟩ := h₁ b hb
    exact Option.isSome_iff_exists.mpr ⟨v, hv⟩
  · intro hcomp row hrow
    obtain ⟨ob, hob, hv⟩ := h₂ row hrow
    exact process_books_complete _ _ genres bookSrc ob row.book_id hob hv
      (hcomp ob hob)

/-- Witness for C1 (amended) on the concrete stream `revsTop` with a book
source that does contain `"b1"`: every review row's book id then resolves to
a books-output row. -/
theorem claim_C1_witness :
    ∀ row ∈ (process_reviews revsTop).rows,
      ∃ brow ∈ (process_books (process_reviews revsTop).kept_books_old
          (process_reviews revsTop).book_id_map []
          (some [some { book_id := "b1", title := "T",
                        description := [] }])).getD [],
        brow.book_id = row.book_id :=
  (claim_C1_referential revsTop
    [some { book_id := "b1", title := "T", description := [] }] []).2.2.2
    (by decide)
